import Mathlib

/-!
# Verification of the ontology-grounded planning pipeline

A shallow embedding, in Lean 4, of the deterministic core of the
`agent_poc` repository: the ontology loader, the semantic-layer engine
(tool registry and derived indices), relation discovery, the relevance-key
wire format, graph expansion, tool selection, the planning pipeline's plan
handling, and the model-schema normalisation.

Python dictionaries are modelled as association lists in insertion order
(CPython dictionaries preserve insertion order), Python sets of strings as
`Finset String`, fallible code as `Except String`, and JSON-like payloads
as the inductive type `Json` below.  Each definition carries a comment
naming the source function it embeds.
-/

namespace AgentPoc

/-- JSON-like values: the duck-typed payloads passed between pipeline
stages (`Dict[str, Any]` in the source).  Objects are association lists in
insertion order. -/
inductive Json where
  | null
  | bool (b : Bool)
  | num (n : Int)
  | str (s : String)
  | arr (elems : List Json)
  | obj (fields : List (String × Json))
deriving Repr

/-- `(from_entity, relation_name, to_entity)` — `RelationKey` in
`semantic_layer/ontology.py`. -/
abbrev RelationKey := String × String × String

/-- Lookup in a Python-dict-as-association-list: `d.get(k)` / `k in d`.
Returns the value of the first (hence only, for dict-built lists) entry. -/
def alistLookup {κ β : Type} [DecidableEq κ] (m : List (κ × β)) (k : κ) : Option β :=
  match m with
  | [] => none
  | (k1, v) :: rest => if k1 = k then some v else alistLookup rest k

/-- Python `d[k] = v` on a dict: overwrite in place if the key exists
(keeping its position), else append at the end. -/
def dictInsert {κ β : Type} [DecidableEq κ] (m : List (κ × β)) (k : κ) (v : β) :
    List (κ × β) :=
  match m with
  | [] => [(k, v)]
  | (k1, v1) :: rest =>
      if k1 = k then (k1, v) :: rest else (k1, v1) :: dictInsert rest k v

/-- `defaultdict(list)` append: `d[k].append(v)` — extend the existing
entry's list in place, or create a one-element list under a fresh key. -/
def dictAppend {κ β : Type} [DecidableEq κ] (m : List (κ × List β)) (k : κ) (v : β) :
    List (κ × List β) :=
  match m with
  | [] => [(k, [v])]
  | (k1, vs) :: rest =>
      if k1 = k then (k1, vs ++ [v]) :: rest else (k1, vs) :: dictAppend rest k v

-- ---------------------------------------------------------------------
-- Ontology data model (`semantic_layer/ontology.py`)
-- ---------------------------------------------------------------------

/-- `RelationshipSpec` dataclass. -/
structure RelationshipSpec where
  target : String
  description : String := ""
deriving Repr, DecidableEq

/-- `EntitySchema` dataclass. -/
structure EntitySchema where
  name : String
  description : String := ""
  synonyms : List String := []
  attributes : List String := []
  relationships : List (String × RelationshipSpec) := []
deriving Repr, DecidableEq

/-- `RelationSchema` dataclass. -/
structure RelationSchema where
  name : String
  from_entity : String
  to_entity : String
  description : String := ""
deriving Repr, DecidableEq

/-- `RelationSchema.key` property. -/
def RelationSchema.key (r : RelationSchema) : RelationKey :=
  (r.from_entity, r.name, r.to_entity)

/-- A relationship entry as it appears in a parsed YAML payload: either a
bare target-entity string or a `{target, description}` mapping with
optional keys (`rel_cfg` in `load_ontology`). -/
inductive RelCfg where
  | bare (target : String)
  | dict (target : Option String) (description : Option String)
deriving Repr, DecidableEq

/-- One entity's parsed YAML configuration (`cfg` in `load_ontology`);
`none` models an absent key, mirroring `cfg.get(..., default)`. -/
structure EntityCfg where
  description : Option String := none
  synonyms : Option (List String) := none
  attributes : Option (List String) := none
  relationships : Option (List (String × RelCfg)) := none
deriving Repr, DecidableEq

/-- The target/description extraction of `load_ontology`'s relationship
loop: `rel_cfg.get("target")` when the entry is a dict, the bare scalar
otherwise. -/
def RelCfg.targetAndDesc : RelCfg → Option String × String
  | .bare t => (some t, "")
  | .dict t d => (t, d.getD "")

/-- The relationship loop body of `load_ontology` (`ontology.py`, lines
121-145): extract the target (checking only presence/non-emptiness),
record the `RelationshipSpec`, and materialise a `RelationSchema` in the
relation index.  No check that the target is a defined entity. -/
def loadRelStep (entity_name : String)
    (rsAcc : List (String × RelationshipSpec) × List (RelationKey × RelationSchema))
    (rc : String × RelCfg) :
    Except String
      (List (String × RelationshipSpec) × List (RelationKey × RelationSchema)) :=
  match (RelCfg.targetAndDesc rc.2).1, (RelCfg.targetAndDesc rc.2).2 with
  | none, _ =>
      Except.error ("Relationship '" ++ rc.1 ++ "' under entity '" ++
        entity_name ++ "' is missing a target")
  | some target_entity, rel_description =>
      if target_entity = "" then
        Except.error ("Relationship '" ++ rc.1 ++ "' under entity '" ++
          entity_name ++ "' is missing a target")
      else
        Except.ok (dictInsert rsAcc.1 rc.1 ⟨target_entity, rel_description⟩,
            dictInsert rsAcc.2 (entity_name, rc.1, target_entity)
              ⟨rc.1, entity_name, target_entity, rel_description⟩)

/-- The per-entity body of `load_ontology`'s main loop (`ontology.py`,
lines 114-154). -/
def loadEntityStep
    (acc : List (String × EntitySchema) × List (RelationKey × RelationSchema))
    (ec : String × EntityCfg) :
    Except String
      (List (String × EntitySchema) × List (RelationKey × RelationSchema)) :=
  let entity_name := ec.1
  let cfg := ec.2
  let description := cfg.description.getD ""
  let synonyms := cfg.synonyms.getD []
  let attributes := cfg.attributes.getD []
  let relationships_cfg := cfg.relationships.getD []
  (relationships_cfg.foldlM (loadRelStep entity_name)
      (([] : List (String × RelationshipSpec)), acc.2)).map
    (fun rs =>
      (dictInsert acc.1 entity_name
        ⟨entity_name, description, synonyms, attributes, rs.1⟩,
       rs.2))

/-- `load_ontology` (`semantic_layer/ontology.py`, lines 107-156), starting
from the parsed `entities_def` mapping (YAML parsing and the directory
walk are I/O and happen before this point).  Faithful to the source: the
only relationship check is that a target is present and non-empty
(falsy-check `if not target_entity`); a target naming an undefined entity
is NOT checked. -/
def load_ontology (entities_def : List (String × EntityCfg)) :
    Except String (List (String × EntitySchema) × List (RelationKey × RelationSchema)) :=
  if entities_def.isEmpty then
    .error "ontology definition must include 'entities'"
  else
    entities_def.foldlM loadEntityStep ([], [])

-- ---------------------------------------------------------------------
-- Semantic layer engine (`semantic_layer/engine.py`)
-- ---------------------------------------------------------------------

/-- `ToolInfo` dataclass.  The `handler` field (a Python function object)
is not modelled: no claim inspects it and it is popped before any payload
leaves the process (`tools_to_dict`). -/
structure ToolInfo where
  name : String
  description : String
  input_schema : List Json
  output_type : String
  kind : String
  associated_relation : Option RelationKey := none
  associated_entity : Option String := none
deriving Repr

/-- One `TOOLS_REGISTRY` entry as written by the `semantic_tool`
decorator (`tool_decorator.py`): every key is always present, so the
`meta.get(..., default)` calls in `load_tools` never fall back.  The `fn`
entry (the wrapped function) is not modelled. -/
structure ToolMeta where
  input_schema : List Json := []
  output_type : String := "Any"
  entity : Option String := none
  relation : Option RelationKey := none
  description : String := ""

/-- Python truthiness of an optional string: `None` and `""` are falsy. -/
def pyTruthyStr : Option String → Bool
  | none => false
  | some s => !(s == "")

/-- Python truthiness of an optional relation triple: `None` is falsy, a
3-tuple is always non-empty and hence truthy. -/
def pyTruthyRel : Option RelationKey → Bool
  | none => false
  | some _ => true

/-- `load_tools` (`engine.py`, lines 104-142), starting from the populated
registry (module importing is I/O).  `kind` is `"relation"` when the
relation association is truthy, else `"entity"` when the entity
association is truthy, else the registration fails; both associations are
copied onto the `ToolInfo` unconditionally. -/
def load_tools (registry : List (String × ToolMeta)) :
    Except String (List (String × ToolInfo)) :=
  registry.foldlM
    (fun tools (nm : String × ToolMeta) =>
      let name := nm.1
      let meta := nm.2
      if pyTruthyRel meta.relation then
        Except.ok (dictInsert tools name
          ⟨name, meta.description, meta.input_schema, meta.output_type,
            "relation", meta.relation, meta.entity⟩)
      else if pyTruthyStr meta.entity then
        Except.ok (dictInsert tools name
          ⟨name, meta.description, meta.input_schema, meta.output_type,
            "entity", meta.relation, meta.entity⟩)
      else
        Except.error ("Tool '" ++ name ++
          "' must declare either an entity or relation association"))
    []

/-- The composite read-only view (`SemanticLayer` dataclass). -/
structure SemanticLayer where
  entities : List (String × EntitySchema)
  relations : List (RelationKey × RelationSchema)
  tools : List (String × ToolInfo)
  tools_by_relation : List (RelationKey × List ToolInfo)
  tools_by_entity : List (String × List ToolInfo)

/-- The loop body of the linking pass of `build_semantic_layer`
(`engine.py`, lines 159-163): append one tool to the index matching its
kind when the matching association is set; otherwise do nothing. -/
def buildIdxStep
    (idx : List (RelationKey × List ToolInfo) × List (String × List ToolInfo))
    (nt : String × ToolInfo) :
    List (RelationKey × List ToolInfo) × List (String × List ToolInfo) :=
  let tool := nt.2
  if tool.kind = "relation" then
    match tool.associated_relation with
    | some r => (dictAppend idx.1 r tool, idx.2)
    | none => idx
  else if tool.kind = "entity" then
    match tool.associated_entity with
    | some e => (idx.1, dictAppend idx.2 e tool)
    | none => idx
  else idx

/-- The linking pass of `build_semantic_layer` (`engine.py`, lines
155-163): partition the registered tools into the two derived indices in
one pass over `tools.values()`. -/
def build_tool_indices (tools : List (String × ToolInfo)) :
    List (RelationKey × List ToolInfo) × List (String × List ToolInfo) :=
  tools.foldl buildIdxStep ([], [])

/-- All `ToolInfo` entries across an index's value lists. -/
def idxValues {κ : Type} (m : List (κ × List ToolInfo)) : List ToolInfo :=
  (m.map Prod.snd).flatten

/-- The total number of `ToolInfo` entries across an index's value
lists. -/
def totalCount {κ : Type} (m : List (κ × List ToolInfo)) : Nat :=
  (m.map (fun kv => kv.2.length)).sum

/-- `build_semantic_layer` (`engine.py`, lines 145-171), starting from the
loaded ontology tables and the populated registry (the YAML walk and
module imports are I/O performed before this point). -/
def build_semantic_layer (entities : List (String × EntitySchema))
    (relations : List (RelationKey × RelationSchema))
    (registry : List (String × ToolMeta)) : Except String SemanticLayer := do
  let tools ← load_tools registry
  let idx := build_tool_indices tools
  Except.ok ⟨entities, relations, tools, idx.1, idx.2⟩

/-- `SemanticLayer.get_tools_for_relation`: dict `get` with `[]` default. -/
def SemanticLayer.get_tools_for_relation (l : SemanticLayer)
    (from_entity name to_entity : String) : List ToolInfo :=
  (alistLookup l.tools_by_relation (from_entity, name, to_entity)).getD []

/-- `SemanticLayer.get_tools_for_entity`: dict `get` with `[]` default. -/
def SemanticLayer.get_tools_for_entity (l : SemanticLayer)
    (entity_name : String) : List ToolInfo :=
  (alistLookup l.tools_by_entity entity_name).getD []

/-- `SemanticLayer.list_relations_from`: scan `relations.values()` for a
source match. -/
def SemanticLayer.list_relations_from (l : SemanticLayer)
    (entity_name : String) : List RelationSchema :=
  (l.relations.map (fun kv => kv.2)).filter (fun r => r.from_entity == entity_name)

/-- `SemanticLayer.list_relations_to`: scan `relations.values()` for a
target match. -/
def SemanticLayer.list_relations_to (l : SemanticLayer)
    (entity_name : String) : List RelationSchema :=
  (l.relations.map (fun kv => kv.2)).filter (fun r => r.to_entity == entity_name)

/-- `SemanticLayer.list_relations`: outgoing then incoming, concatenated
without deduplication. -/
def SemanticLayer.list_relations (l : SemanticLayer)
    (entity_name : String) : List RelationSchema :=
  l.list_relations_from entity_name ++ l.list_relations_to entity_name

/-- `SemanticLayer.has_entity`. -/
def SemanticLayer.has_entity (l : SemanticLayer) (name : String) : Bool :=
  (alistLookup l.entities name).isSome

-- ---------------------------------------------------------------------
-- Relation discovery (`modules/semantic_grounding/relation_discovery.py`)
-- ---------------------------------------------------------------------

/-- A seed entity record as consumed by `discover_relations`: a dict whose
`"type"` key may be absent (`entity.get("type")`). -/
structure SeedRecord where
  type? : Option String
deriving Repr, DecidableEq

/-- `(from_entity, relation_name, to_entity, description)` candidate
tuples. -/
abbrev Candidate := String × String × String × String

/-- Python `str.lower()` (ASCII-relevant part), written over the
character list so that it evaluates by kernel reduction. -/
def pyLower (s : String) : String := String.mk (s.data.map Char.toLower)

/-- A Python `set` of hashable values, modelled as its membership-deduped
element list: `s.add(x)` appends only unseen values.  Only membership and
addition are performed on the sets in the embedded code, so this carries
exactly the information those operations observe. -/
def pySetAdd {α : Type} [DecidableEq α] (s : List α) (x : α) : List α :=
  if x ∈ s then s else s ++ [x]

/-- The inner loop of `discover_relations`: walk `list_relations(t)` and
append any relation whose key has not been seen. -/
def discoverInner (seen : List RelationKey) (acc : List Candidate) :
    List RelationSchema → List RelationKey × List Candidate
  | [] => (seen, acc)
  | rel :: rest =>
      if rel.key ∈ seen then discoverInner seen acc rest
      else
        discoverInner (pySetAdd seen rel.key)
          (acc ++ [(rel.from_entity, rel.name, rel.to_entity, rel.description)])
          rest

/-- The outer loop of `discover_relations`: records whose `"type"` is
falsy (absent or `""`) are skipped (`if not entity_type: continue`). -/
def discoverOuter (l : SemanticLayer) (seen : List RelationKey)
    (acc : List Candidate) : List SeedRecord → List Candidate
  | [] => acc
  | e :: rest =>
      match e.type? with
      | none => discoverOuter l seen acc rest
      | some t =>
          if t = "" then discoverOuter l seen acc rest
          else
            let p := discoverInner seen acc (l.list_relations t)
            discoverOuter l p.1 p.2 rest

/-- `discover_relations` (`relation_discovery.py`, lines 8-41).  The
`rel.description or ""` in the source is the identity here because
`RelationSchema.description` is a string (default `""`). -/
def discover_relations (l : SemanticLayer) (seed_entities : List SeedRecord) :
    List Candidate :=
  discoverOuter l [] [] seed_entities

-- ---------------------------------------------------------------------
-- Graph expansion (`modules/semantic_grounding/entity_expansion.py`)
-- ---------------------------------------------------------------------

/-- A seed entity record as consumed by `expand_entities`, which reads
only `e["type"]` (other keys, such as `"value"`, are never accessed). -/
structure SeedEntity where
  type : String
deriving Repr, DecidableEq

/-- The per-relation body of the expansion loop (`entity_expansion.py`,
lines 33-43): pull in the target when the source is present, then the
source when the target is present, checking against the updated set. -/
def expandRelStep (acc : List String) (rel : RelationKey) : List String :=
  let acc1 := if rel.1 ∈ acc ∧ rel.2.2 ∉ acc then acc ++ [rel.2.2] else acc
  if rel.2.2 ∈ acc1 ∧ rel.1 ∉ acc1 then acc1 ++ [rel.1] else acc1

/-- One full `for rel in active_relations` pass of the expansion loop
(`entity_expansion.py`, lines 33-43). -/
def expandOnePass (active_relations : List RelationKey) (s : List String) :
    List String :=
  active_relations.foldl expandRelStep s

/-- The `while changed` loop (`entity_expansion.py`, lines 29-43): repeat
full passes until a pass makes no change.  The source iterates without an
explicit bound; here the iteration carries fuel, and `expandLoop_fixed`
below proves that `2 * |active_relations|` passes always reach the fixed
point the source loop terminates at, so this computes the same closure. -/
def expandLoop (active_relations : List RelationKey) :
    Nat → List String → List String
  | 0, s => s
  | n + 1, s =>
      let s1 := expandOnePass active_relations s
      if s1 = s then s else expandLoop active_relations n s1

/-- Lexicographic `≤` on character lists by code point, written with
`Nat` comparisons so it evaluates by kernel reduction (Python compares
strings by code point). -/
def charListLe : List Char → List Char → Bool
  | [], _ => true
  | _ :: _, [] => false
  | a :: as, b :: bs =>
      if a.toNat < b.toNat then true
      else if b.toNat < a.toNat then false
      else charListLe as bs

/-- Python string `<=`: lexicographic by code point. -/
def pyStrLe (a b : String) : Bool := charListLe a.data b.data

/-- Python `sorted()` on a set of strings: lexicographic insertion of one
element into a sorted list. -/
def insertSorted (x : String) : List String → List String
  | [] => [x]
  | y :: ys => if pyStrLe x y then x :: y :: ys else y :: insertSorted x ys

/-- Python `sorted()` on a set of strings (the set is given by its
element list; the result does not depend on that list's order, only on
its members, which is all a Python set determines). -/
def pySorted : List String → List String
  | [] => []
  | x :: xs => insertSorted x (pySorted xs)

/-- The algorithm of `expand_entities` (`entity_expansion.py`, lines
21-45), with the relevance map supplied as the parameter the body reads
as `relevant_relations` (the declared signature of the source function is
broken — see `expand_entities_call` below — so this embeds the body's
algorithm, which every claim about expansion references).  The set
comprehension `{e["type"] for e in step1_entities}` becomes a
first-occurrence dedup. -/
def expand_entities (step1_entities : List SeedEntity)
    (relevant_relations : List (RelationKey × String)) :
    List String × List RelationKey :=
  let entity_types : List String :=
    step1_entities.foldl (fun acc e => pySetAdd acc e.type) []
  let active_relations :=
    (relevant_relations.filter (fun p => pyLower p.2 == "yes")).map (fun p => p.1)
  let closure := expandLoop active_relations (2 * active_relations.length) entity_types
  (pySorted closure, active_relations)

-- ---------------------------------------------------------------------
-- Relevance-key wire format
-- (`modules/semantic_grounding/relation_filtering.py`)
-- ---------------------------------------------------------------------

/-- Whether `sep` occurs as a contiguous sublist of `s` (substring
containment at the character level). -/
def hasSub (s sep : List Char) : Bool :=
  match s with
  | [] => sep.isEmpty
  | _ :: rest => sep.isPrefixOf s || hasSub rest sep

/-- Python `sep in s` for strings. -/
def strHasSub (s sep : String) : Bool := hasSub s.data sep.data

/-- Core of Python `str.split(sep)` for a non-empty separator: scan left
to right; at the leftmost separator occurrence emit the accumulated piece
and continue past the separator (non-overlapping, greedy-left — CPython's
behaviour).  `acc` holds the current piece reversed.  (For an empty `sep`,
where CPython raises, this degenerates to never matching.) -/
def pySplitAux (sep : List Char) (s acc : List Char) : List (List Char) :=
  match s with
  | [] => [acc.reverse]
  | c :: rest =>
      if sep ≠ [] ∧ sep.isPrefixOf (c :: rest) then
        acc.reverse :: pySplitAux sep ((c :: rest).drop sep.length) []
      else
        pySplitAux sep rest (c :: acc)
termination_by s.length
decreasing_by
  · rename_i h
    have hsep : 1 ≤ sep.length := by
      cases sep with
      | nil => exact absurd rfl h.1
      | cons x xs => exact Nat.succ_le_succ (Nat.zero_le _)
    simp only [List.length_drop, List.length_cons]
    omega
  · simp only [List.length_cons]
    omega

/-- Python `s.split(sep)`. -/
def pySplit (s sep : String) : List String :=
  (pySplitAux sep.data s.data []).map (fun l => String.mk l)

/-- The relevance-key parsing in `RelationFiltering.forward`
(`relation_filtering.py`, lines 56-60): `source, rest = key.split(".")`
then `name, target = rest.split("->")`.  A tuple unpack of the wrong
arity raises `ValueError`. -/
def parseRelationKey (key : String) : Except String RelationKey :=
  match pySplit key "." with
  | [source, rest] =>
      match pySplit rest "->" with
      | [name, target] => Except.ok (source, name, target)
      | _ => Except.error "ValueError: unpack"
  | _ => Except.error "ValueError: unpack"

/-- The wire serialisation of a relation key, `"{from}.{name}->{to}"`:
the format declared by `RelationFilteringSignature` (the string the
relevance oracle is contracted to emit) and printed by
`relation_discovery.py`'s demonstration code. -/
def serializeRelationKey (k : RelationKey) : String :=
  k.1 ++ "." ++ k.2.1 ++ "->" ++ k.2.2

/-- No component of the key contains either separator substring (`"."`
or `"->"`) — the implicit wire-format constraint on entity and relation
names. -/
def sepFreeKey (k : RelationKey) : Bool :=
  !strHasSub k.1 "." && !strHasSub k.2.1 "." && !strHasSub k.2.2 "." &&
  !strHasSub k.1 "->" && !strHasSub k.2.1 "->" && !strHasSub k.2.2 "->"

-- ---------------------------------------------------------------------
-- Tool selection (`semantic_layer/tools_selection.py` and
-- `modules/planning/pipeline.py`)
-- ---------------------------------------------------------------------

/-- `select_tools` (`tools_selection.py`, lines 10-34): entity-level
tools for each expanded entity in order, then relation-level tools for
each active relation in order.  No deduplication is performed. -/
def select_tools (l : SemanticLayer) (expanded_entities : List String)
    (active_relations : List RelationKey) : List ToolInfo :=
  let selected_tools :=
    expanded_entities.foldl (fun acc e => acc ++ l.get_tools_for_entity e) []
  active_relations.foldl
    (fun acc r => acc ++ l.get_tools_for_relation r.1 r.2.1 r.2.2) selected_tools

/-- The `seen_tools` / `unique_tools` loop of `run_planning`
(`pipeline.py`, lines 62-67): keep the first occurrence of each tool
name. -/
def dedupToolsAux (seen : List String) : List ToolInfo → List ToolInfo
  | [] => []
  | t :: ts =>
      if t.name ∈ seen then dedupToolsAux seen ts
      else t :: dedupToolsAux (pySetAdd seen t.name) ts

/-- Step 3.1 of `run_planning` (`pipeline.py`, lines 50-67): tools for
each active relation in order, then entity-level tools for each expanded
entity in order, then dedup by name keeping the first occurrence. -/
def collect_candidate_tools (l : SemanticLayer) (expanded_entities : List String)
    (active_relations : List RelationKey) : List ToolInfo :=
  let candidate_tools_list :=
    active_relations.foldl
      (fun acc rel => acc ++ l.get_tools_for_relation rel.1 rel.2.1 rel.2.2) []
  let candidate_tools_list :=
    expanded_entities.foldl
      (fun acc e => acc ++ l.get_tools_for_entity e) candidate_tools_list
  dedupToolsAux [] candidate_tools_list

-- ---------------------------------------------------------------------
-- Schema converters (`modules/planning/schema_converters.py`)
-- ---------------------------------------------------------------------

/-- Remove the first entry with the given key: `d.pop(k, None)` on a
unique-key dict. -/
def alistErase {κ β : Type} [DecidableEq κ] (m : List (κ × β)) (k : κ) :
    List (κ × β) :=
  match m with
  | [] => []
  | (k1, v) :: rest => if k1 = k then rest else (k1, v) :: alistErase rest k

/-- `tools_to_dict` for one tool: `asdict(t)` minus the `handler` key. -/
def tool_to_dict (t : ToolInfo) : Json :=
  Json.obj
    [("name", Json.str t.name),
     ("description", Json.str t.description),
     ("input_schema", Json.arr t.input_schema),
     ("output_type", Json.str t.output_type),
     ("kind", Json.str t.kind),
     ("associated_relation",
       match t.associated_relation with
       | none => Json.null
       | some r => Json.arr [Json.str r.1, Json.str r.2.1, Json.str r.2.2]),
     ("associated_entity",
       match t.associated_entity with
       | none => Json.null
       | some e => Json.str e)]

/-- `tools_to_dict` (`schema_converters.py`, lines 17-28). -/
def tools_to_dict (tools : List ToolInfo) : List Json := tools.map tool_to_dict

/-- `entities_to_dict` for one entity (`schema_converters.py`, lines
31-48): name, description, synonyms and relationships only. -/
def entity_to_dict (e : EntitySchema) : Json :=
  Json.obj
    [("name", Json.str e.name),
     ("description", Json.str e.description),
     ("synonyms", Json.arr (e.synonyms.map Json.str)),
     ("relationships",
       Json.obj (e.relationships.map (fun kv =>
         (kv.1, Json.obj [("target", Json.str kv.2.target),
                          ("description", Json.str kv.2.description)]))))]

/-- `entities_to_dict`. -/
def entities_to_dict (es : List EntitySchema) : List Json := es.map entity_to_dict

/-- `relations_to_dict` for one relation (`schema_converters.py`, lines
51-62). -/
def relation_to_dict (r : RelationSchema) : Json :=
  Json.obj
    [("name", Json.str r.name),
     ("from_entity", Json.str r.from_entity),
     ("to_entity", Json.str r.to_entity),
     ("description", Json.str r.description)]

/-- `relations_to_dict`. -/
def relations_to_dict (rs : List RelationSchema) : List Json :=
  rs.map relation_to_dict

/-- The loop body of `normalize_model_schema` (`schema_converters.py`,
lines 71-73) for one `properties` entry: pop the `format` key exactly
when its value equals the string `"date-time"`; a non-mapping property
raises (`AttributeError` on `.get`). -/
def normalizeProp (kv : String × Json) : Except String (String × Json) :=
  match kv.2 with
  | Json.obj prop_schema =>
      match alistLookup prop_schema "format" with
      | some (Json.str s) =>
          if s = "date-time" then
            Except.ok (kv.1, Json.obj (alistErase prop_schema "format"))
          else Except.ok kv
      | _ => Except.ok kv
  | _ => Except.error "AttributeError: object has no attribute 'get'"

/-- `normalize_model_schema` (`schema_converters.py`, lines 65-74): apply
`normalizeProp` to each property when a `properties` mapping is present.
A schema without `properties` is returned unchanged; a non-mapping
`properties` value raises (`AttributeError` on `.items`). -/
def normalize_model_schema (schema : List (String × Json)) :
    Except String (List (String × Json)) :=
  match alistLookup schema "properties" with
  | none => Except.ok schema
  | some (Json.obj props) =>
      (props.mapM normalizeProp).map
        (fun props2 => dictInsert schema "properties" (Json.obj props2))
  | some _ => Except.error "AttributeError: object has no attribute 'items'"

/-- `models_to_dict` (`schema_converters.py`, lines 77-90), parameterised
by the external `model_cls.model_json_schema()` (pydantic, out of scope):
collect each model's JSON schema and normalise it. -/
def models_to_dict (modelJsonSchema : String → List (String × Json))
    (models : List String) : Except String (List (String × Json)) :=
  models.mapM (fun n =>
    (normalize_model_schema (modelJsonSchema n)).map (fun s => (n, Json.obj s)))

-- ---------------------------------------------------------------------
-- Planning pipeline (`modules/planning/pipeline.py`)
-- ---------------------------------------------------------------------

/-- The dict `{"steps": result.steps}` returned by
`TypeAwarePlanner.forward`: the synthesis oracle's plan, an untyped list
of step dicts. -/
structure PlannerResult where
  steps : List Json

/-- The plan-synthesis oracle boundary (`TypeAwarePlanner`), as a
function of the seven inputs `run_planning` passes it. -/
abbrev PlannerFn :=
  String → String → List Json → List Json → List Json → List Json →
  List (String × Json) → PlannerResult

/-- The dict `{"python_code": ...}` returned by `PythonCodeGen`. -/
structure CodegenResult where
  python_code : String

/-- The code-generation oracle boundary (`PythonCodeGen`), as a function
of the plan, tools dict and model schemas `run_planning` passes it. -/
abbrev CodegenFn :=
  List Json → List (String × Json) → List (String × Json) → CodegenResult

/-- `model_mapping` keys in `run_planning` (`pipeline.py`, lines 90-96). -/
def MODEL_MAPPING_KEYS : List String :=
  ["Container", "Shipment", "Facility", "ContainerEvent", "City"]

/-- `run_planning` (`pipeline.py`, lines 19-131), parameterised by the
semantic layer (a module-level global in the source), the external
pydantic schema generator, and the two oracles.  Dictionary subscripts
(`semantic_layer.entities[e]`, `semantic_layer.relations[rel]`,
`tool["name"]`) are the only fallible operations; the plan returned by
the planner oracle flows to the code generator and to the caller without
any inspection. -/
def run_planning (l : SemanticLayer)
    (modelJsonSchema : String → List (String × Json))
    (planner : PlannerFn) (codegen : CodegenFn)
    (query intent : String) (extracted_entities : List Json)
    (expanded_entities : List String) (active_relations : List RelationKey) :
    Except String (List Json × String) :=
  if extracted_entities.isEmpty ∨ expanded_entities.isEmpty then
    Except.ok ([], "")
  else do
    let unique_tools := collect_candidate_tools l expanded_entities active_relations
    let candidate_tools := tools_to_dict unique_tools
    let ents ← expanded_entities.mapM (fun e =>
      match alistLookup l.entities e with
      | some s => Except.ok s
      | none => Except.error ("KeyError: " ++ e))
    let entity_schemas := entities_to_dict ents
    let rels ← active_relations.mapM (fun r =>
      match alistLookup l.relations r with
      | some s => Except.ok s
      | none => Except.error ("KeyError: " ++ r.1 ++ "." ++ r.2.1 ++ "->" ++ r.2.2))
    let relation_schemas := relations_to_dict rels
    let models := MODEL_MAPPING_KEYS.filter (fun n => expanded_entities.contains n)
    let model_schemas ← models_to_dict modelJsonSchema models
    let planner_result :=
      planner query intent extracted_entities candidate_tools entity_schemas
        relation_schemas model_schemas
    let plan_steps := planner_result.steps
    let tools_dict ← candidate_tools.mapM (fun t =>
      match t with
      | Json.obj fs =>
          match alistLookup fs "name" with
          | some (Json.str n) => Except.ok (n, t)
          | some _ => Except.error "TypeError: unhashable tool name"
          | none => Except.error "KeyError: name"
      | _ => Except.error "TypeError: string indices must be integers")
    let codegen_result := codegen plan_steps tools_dict model_schemas
    Except.ok (plan_steps, codegen_result.python_code)

-- ---------------------------------------------------------------------
-- The broken `expand_entities` call
-- (`modules/semantic_grounding/entity_expansion.py` and `pipeline.py`)
-- ---------------------------------------------------------------------

/-- The declared parameter list of `def expand_entities(step1_entities)`
(`entity_expansion.py`, lines 8-10). -/
def expand_entities_params : List String := ["step1_entities"]

/-- The names bound at module level in `entity_expansion.py` when it is
imported: the four `typing` imports, `RelationKey`, and the function
itself (the `__main__` guard does not run on import, and binds no name
called `relevant_relations` anyway). -/
def entity_expansion_module_globals : List String :=
  ["Dict", "List", "Set", "Tuple", "RelationKey", "expand_entities"]

/-- The local names bound in `expand_entities`' body before (and at) the
point where `relevant_relations` is read: the sole parameter and
`entity_types`. -/
def expand_entities_locals : List String := ["step1_entities", "entity_types"]

/-- Python call binding: a keyword argument whose name is not among the
callee's declared parameters raises `TypeError` before the body runs. -/
def pyBindKwargs (fname : String) (params kwargs : List String) :
    Except String Unit :=
  match kwargs.find? (fun k => !params.contains k) with
  | some k =>
      Except.error ("TypeError: " ++ fname ++
        "() got an unexpected keyword argument '" ++ k ++ "'")
  | none => Except.ok ()

/-- The relevance-oracle boundary used by `run_semantic_grounding`
(`RelationFiltering.__call__`). -/
abbrev FilterFn := String → String → List Candidate → List (RelationKey × String)

/-- `run_semantic_grounding` (`modules/semantic_grounding/pipeline.py`,
lines 14-39).  The call
`expand_entities(step1_entities=entities, relevant_relations=filtered)`
is bound against `expand_entities`' declared parameters; binding fails
with `TypeError` (unexpected keyword).  Were the binding ever to
succeed, the body would still fail with `NameError`: it reads the free
name `relevant_relations`, which is neither a local nor a module-level
name (`expand_entities_free_name_unbound` below). -/
def run_semantic_grounding (l : SemanticLayer) (filtering_model : FilterFn)
    (query : String) (entities : List SeedRecord) (intent : String) :
    Except String (List String × List RelationKey) :=
  if entities.isEmpty then Except.ok ([], [])
  else
    let discovered := discover_relations l entities
    let _filtered := filtering_model query intent discovered
    match pyBindKwargs "expand_entities" expand_entities_params
        ["step1_entities", "relevant_relations"] with
    | Except.error e => Except.error e
    | Except.ok _ =>
        Except.error "NameError: name 'relevant_relations' is not defined"

-- ---------------------------------------------------------------------
-- Plan validation as specified (no counterpart exists in the source)
-- ---------------------------------------------------------------------

/-- The plan-step invariant violations named by the specification's
`MalformedPlanError`. -/
inductive PlanError where
  | malformedStep
  | nonIncreasingId (id : Int)
  | unknownTool (tool : String)
  | forwardReference (var : String)
  | duplicateOutput (var : String)
deriving Repr, DecidableEq

/-- Identifier characters for the field-path grammar. -/
def isIdentChar (c : Char) : Bool := c.isAlphanum || c == '_'

/-- The head `var` of a field path (`var ("[" index "]" | "." field)*`). -/
def pathHead (s : String) : String := String.mk (s.data.takeWhile isIdentChar)

/-- Modelled from the spec (§4.7): whether a string-valued input is a
variable reference the validator must check — a non-empty identifier
head followed by an explicit path suffix (`[` or `.`).  A bare string is
syntactically ambiguous with a literal, so only suffixed paths are
treated as references; the claims' example uses an explicit path. -/
def isVarPathRef (s : String) : Bool :=
  let head := s.data.takeWhile isIdentChar
  let rest := s.data.dropWhile isIdentChar
  !head.isEmpty && !rest.isEmpty &&
    (rest.head? == some '[' || rest.head? == some '.')

/-- Modelled from the spec (§4.7 / §3 `PlanStep`): the validator the
specification ascribes to the core but which has no counterpart in the
source.  Checks, per step and in order: well-formed shape, strictly
increasing ids, tool in the candidate set, every referenced input
variable defined by an earlier step, and unique outputs; the first
violation is reported. -/
def specValidateSteps (candidate_tools : List String) :
    Int → List String → List Json → Except PlanError Unit
  | _, _, [] => Except.ok ()
  | prevId, outs, step :: rest =>
      match step with
      | Json.obj fs =>
          match alistLookup fs "id", alistLookup fs "tool",
              alistLookup fs "inputs", alistLookup fs "output" with
          | some (Json.num i), some (Json.str tool),
              some (Json.obj inputs), some (Json.str out) =>
              if i ≤ prevId then Except.error (PlanError.nonIncreasingId i)
              else if !(candidate_tools.contains tool) then
                Except.error (PlanError.unknownTool tool)
              else
                match inputs.find? (fun kv =>
                    match kv.2 with
                    | Json.str s => isVarPathRef s && !(outs.contains (pathHead s))
                    | _ => false) with
                | some kv =>
                    match kv.2 with
                    | Json.str s => Except.error (PlanError.forwardReference (pathHead s))
                    | _ => Except.error PlanError.malformedStep
                | none =>
                    if outs.contains out then
                      Except.error (PlanError.duplicateOutput out)
                    else specValidateSteps candidate_tools i (outs ++ [out]) rest
          | _, _, _, _ => Except.error PlanError.malformedStep
      | _ => Except.error PlanError.malformedStep

/-- Modelled from the spec: validate a whole plan (ids start above 0, no
outputs defined yet). -/
def specValidatePlan (candidate_tools : List String) (steps : List Json) :
    Except PlanError Unit :=
  specValidateSteps candidate_tools 0 [] steps

-- ---------------------------------------------------------------------
-- Concrete fixtures and derived predicates used by the theorems
-- ---------------------------------------------------------------------

/-- The claim's example source: one entity `"Ship"` declaring
`relationships: {goes_to: "Planet"}` with `"Planet"` not defined. -/
def danglingEntityCfg : EntityCfg :=
  { relationships := some [("goes_to", RelCfg.bare "Planet")] }

/-- A relationship entry carries a truthy (present, non-empty) target —
the only relationship-level condition `load_ontology` checks. -/
def relCfgHasTarget (rc : RelCfg) : Bool :=
  match (RelCfg.targetAndDesc rc).1 with
  | none => false
  | some t => !(t == "")

/-- `.get("format") == "date-time"`: true exactly for the literal string
value `"date-time"`. -/
def isDateTimeFmt : Option Json → Bool
  | some (Json.str s) => s == "date-time"
  | _ => false

/-- The `properties` schema used to witness `C9_normalize_model_schema`:
one `date-time` field and one plain string field. -/
def c9TestSchema : List (String × Json) :=
  [("title", Json.str "Containerevent"),
   ("properties", Json.obj
     [("event_time", Json.obj
        [("type", Json.str "string"), ("format", Json.str "date-time")]),
      ("container_id", Json.obj [("type", Json.str "string")])])]

/-- The normalised form of `c9TestSchema`: only `event_time`'s `format`
key is gone. -/
def c9TestNormalized : List (String × Json) :=
  [("title", Json.str "Containerevent"),
   ("properties", Json.obj
     [("event_time", Json.obj [("type", Json.str "string")]),
      ("container_id", Json.obj [("type", Json.str "string")])])]

/-- The closure property the expansion loop computes: every active
relation with one endpoint in the set has both endpoints in it. -/
def closedUnder (rels : List RelationKey) (s : List String) : Prop :=
  ∀ r ∈ rels, (r.1 ∈ s → r.2.2 ∈ s) ∧ (r.2.2 ∈ s → r.1 ∈ s)

/-- All endpoints (sources and targets) of a relation list, as a finite
set — the only entities a pass can ever add. -/
def endpointsFinset (rels : List RelationKey) : Finset String :=
  (rels.map (fun r => r.1) ++ rels.map (fun r => r.2.2)).toFinset

/-- The composite key of a candidate tuple (drop the description). -/
def candKey (c : Candidate) : RelationKey := (c.1, c.2.1, c.2.2.1)

/-- Python truthiness of the record's `"type"` entry: present and
non-empty. -/
def seedHasType (e : SeedRecord) : Bool :=
  match e.type? with
  | none => false
  | some t => !(t == "")


/-- An entity-associated tool named `"t"`. -/
def tEnt : ToolInfo :=
  ⟨"t", "entity tool", [], "Any", "entity", none, some "E"⟩

/-- A relation-associated tool with the same name `"t"` but different
metadata. -/
def tRel : ToolInfo :=
  ⟨"t", "relation tool", [], "Any", "relation", some ("E", "r", "F"), none⟩

/-- A layer in which the name `"t"` is reachable both via entity `"E"`
and via relation `("E","r","F")`, with different `ToolInfo` records. -/
def c2Layer : SemanticLayer :=
  ⟨[], [], [("t", tRel)], [(("E", "r", "F"), [tRel])], [("E", [tEnt])]⟩

/-- A one-relation semantic layer used to witness the discovery claim. -/
def c7Layer : SemanticLayer :=
  ⟨[], [(("City", "has_facility", "Facility"),
      ⟨"has_facility", "City", "Facility", "links a city to a facility"⟩)],
    [], [], []⟩

/-- Well-formedness of a loaded tool record: the kind names the
association that is set; `load_tools` only ever produces such records. -/
def toolKindOk (t : ToolInfo) : Prop :=
  (t.kind = "relation" ∧ t.associated_relation ≠ none) ∨
  (t.kind = "entity" ∧ t.associated_entity ≠ none)

/-- A two-tool registry (one entity-associated, one relation-associated)
used to witness the index-partition claim. -/
def c10Registry : List (String × ToolMeta) :=
  [("get_city", { entity := some "City", description := "look up a city" }),
   ("trace", { relation := some ("City", "located_in", "Country") })]

/-- The semantic layer `build_semantic_layer` produces from
`c10Registry` and empty ontology tables. -/
def c10Layer : SemanticLayer :=
  { entities := [], relations := [],
    tools :=
      [("get_city", ⟨"get_city", "look up a city", [], "Any", "entity",
          none, some "City"⟩),
       ("trace", ⟨"trace", "", [], "Any", "relation",
          some ("City", "located_in", "Country"), none⟩)],
    tools_by_relation :=
      [(("City", "located_in", "Country"),
        [⟨"trace", "", [], "Any", "relation",
          some ("City", "located_in", "Country"), none⟩])],
    tools_by_entity :=
      [("City", [⟨"get_city", "look up a city", [], "Any", "entity",
          none, some "City"⟩])] }

/-- An entity-level tool for `"City"` used in the planning fixtures. -/
def c1Tool : ToolInfo :=
  ⟨"get_container_events", "events seen near a city", [], "Any", "entity",
    none, some "City"⟩

/-- A layer with the entity `"City"` and the single tool `c1Tool`. -/
def c1Layer : SemanticLayer :=
  ⟨[("City", ⟨"City", "a city", [], [], []⟩)], [],
   [("get_container_events", c1Tool)], [],
   [("City", [c1Tool])]⟩

/-- A trivial pydantic-schema oracle: every model schema is empty. -/
def c1ModelSchema : String → List (String × Json) := fun _ => []

/-- The claim's example of an invalid plan: its only step reads the
field path `events[*].container_id`, referencing the output variable
`events` that no prior step defines. -/
def c1BadPlan : List Json :=
  [Json.obj
    [("id", Json.num 1),
     ("tool", Json.str "get_container_events"),
     ("inputs", Json.obj [("container_id", Json.str "events[*].container_id")]),
     ("output", Json.str "container_ids")]]

/-- A synthesis oracle that always returns `c1BadPlan`. -/
def c1BadPlanner : PlannerFn := fun _ _ _ _ _ _ _ => ⟨c1BadPlan⟩


-- ---------------------------------------------------------------------
-- General helper lemmas
-- ---------------------------------------------------------------------

/-- A monadic fold over `Except` succeeds when every step does. -/
theorem foldlM_except_ok {α β : Type} (f : β → α → Except String β) (l : List α)
    (h : ∀ b : β, ∀ a ∈ l, ∃ b2, f b a = Except.ok b2) :
    ∀ b : β, ∃ r, l.foldlM f b = Except.ok r := by
  induction l with
  | nil => intro b; exact ⟨b, rfl⟩
  | cons a t ih =>
      intro b
      obtain ⟨b2, hb2⟩ := h b a (List.mem_cons_self a t)
      obtain ⟨r, hr⟩ := ih (fun b3 a3 ha3 => h b3 a3 (List.mem_cons_of_mem a ha3)) b2
      refine ⟨r, ?_⟩
      rw [List.foldlM_cons, hb2]
      exact hr

/-- A monadic map over `Except` succeeds when every element does. -/
theorem mapM_except_ok {α β : Type} (f : α → Except String β) (l : List α)
    (h : ∀ a ∈ l, ∃ b, f a = Except.ok b) :
    ∃ r, l.mapM f = Except.ok r := by
  induction l with
  | nil => exact ⟨[], rfl⟩
  | cons a t ih =>
      obtain ⟨b, hb⟩ := h a (List.mem_cons_self a t)
      obtain ⟨r, hr⟩ := ih (fun a2 ha2 => h a2 (List.mem_cons_of_mem a ha2))
      refine ⟨b :: r, ?_⟩
      rw [List.mapM_cons, hb, hr]
      rfl

-- ---------------------------------------------------------------------
-- C3: dangling relationship targets and `load_ontology`
-- ---------------------------------------------------------------------

/-- A relationship entry whose target is truthy never makes
`loadRelStep` fail. -/
theorem loadRelStep_ok (ename : String)
    (rsAcc : List (String × RelationshipSpec) × List (RelationKey × RelationSchema))
    (rc : String × RelCfg) (h : relCfgHasTarget rc.2 = true) :
    ∃ r2, loadRelStep ename rsAcc rc = Except.ok r2 := by
  unfold relCfgHasTarget at h
  rcases hmt : (RelCfg.targetAndDesc rc.2).1 with _ | t
  · rw [hmt] at h; simp at h
  · rw [hmt] at h
    have hne2 : ¬ t = "" := by simpa using h
    unfold loadRelStep
    simp only [hmt]
    rw [if_neg hne2]
    exact ⟨_, rfl⟩

/-- An entity whose relationship entries all carry truthy targets never
makes `loadEntityStep` fail. -/
theorem loadEntityStep_ok
    (acc : List (String × EntitySchema) × List (RelationKey × RelationSchema))
    (ec : String × EntityCfg)
    (h : ∀ rc ∈ ec.2.relationships.getD [], relCfgHasTarget rc.2 = true) :
    ∃ r, loadEntityStep acc ec = Except.ok r := by
  obtain ⟨r, hr⟩ :=
    foldlM_except_ok (loadRelStep ec.1) (ec.2.relationships.getD [])
      (fun b2 rc hrc => loadRelStep_ok ec.1 b2 rc (h rc hrc)) ([], acc.2)
  simp only [loadEntityStep]
  rw [hr]
  exact ⟨_, rfl⟩

/-- C3 (counterexample): loading the claim's example — an entity whose
relationship targets the undefined entity `"Planet"` — SUCCEEDS: no
error of any kind is raised; the dangling relation is materialised in
the relation index even though `"Planet"` is absent from the entity
table. -/
theorem C3_counterexample :
    load_ontology [("Ship", danglingEntityCfg)] =
      Except.ok
        ([("Ship", ⟨"Ship", "", [], [], [("goes_to", ⟨"Planet", ""⟩)]⟩)],
         [(("Ship", "goes_to", "Planet"), ⟨"goes_to", "Ship", "Planet", ""⟩)]) ∧
    alistLookup [("Ship",
        (⟨"Ship", "", [], [], [("goes_to", ⟨"Planet", ""⟩)]⟩ : EntitySchema))]
      "Planet" = none := by
  constructor
  · rfl
  · rfl

/-- C3 (amended): `load_ontology` performs no referential check on
relationship targets.  Any non-empty source whose relationship entries
all carry a truthy target loads successfully — whether or not those
targets are defined entity names — so a dangling target never raises. -/
theorem C3_load_ontology_ignores_dangling_targets
    (entities_def : List (String × EntityCfg))
    (hne : entities_def ≠ [])
    (htargets : ∀ ec ∈ entities_def,
      ∀ rc ∈ ec.2.relationships.getD [], relCfgHasTarget rc.2 = true) :
    ∃ result, load_ontology entities_def = Except.ok result := by
  unfold load_ontology
  rw [if_neg (by simpa using hne)]
  apply foldlM_except_ok
  intro b ec hec
  exact loadEntityStep_ok b ec (fun rc hrc => htargets ec hec rc hrc)

/-- Witness for `C3_load_ontology_ignores_dangling_targets` at the
claim's example input. -/
theorem C3_witness :
    ∃ result, load_ontology [("Ship", danglingEntityCfg)] = Except.ok result :=
  C3_load_ontology_ignores_dangling_targets [("Ship", danglingEntityCfg)]
    (by decide) (by decide)

-- ---------------------------------------------------------------------
-- Association-list lemmas
-- ---------------------------------------------------------------------

theorem alistLookup_dictInsert_self {κ β : Type} [DecidableEq κ]
    (m : List (κ × β)) (k : κ) (v : β) :
    alistLookup (dictInsert m k v) k = some v := by
  induction m with
  | nil => simp [dictInsert, alistLookup]
  | cons kv rest ih =>
      by_cases hk : kv.1 = k
      · simp [dictInsert, hk, alistLookup]
      · simp only [dictInsert]
        rw [if_neg hk]
        simp only [alistLookup]
        rw [if_neg hk]
        exact ih

theorem alistLookup_dictInsert_ne {κ β : Type} [DecidableEq κ]
    (m : List (κ × β)) (k k2 : κ) (v : β) (h : k2 ≠ k) :
    alistLookup (dictInsert m k v) k2 = alistLookup m k2 := by
  induction m with
  | nil =>
      simp only [dictInsert, alistLookup]
      rw [if_neg (fun he => h he.symm)]
  | cons kv rest ih =>
      by_cases hk : kv.1 = k
      · simp only [dictInsert]
        rw [if_pos hk]
        simp only [alistLookup]
        by_cases hk2 : kv.1 = k2
        · exact absurd (hk2.symm.trans hk) h
        · rw [if_neg hk2, if_neg hk2]
      · simp only [dictInsert]
        rw [if_neg hk]
        simp only [alistLookup]
        by_cases hk2 : kv.1 = k2
        · rw [if_pos hk2, if_pos hk2]
        · rw [if_neg hk2, if_neg hk2]
          exact ih

theorem alistLookup_erase_ne {κ β : Type} [DecidableEq κ]
    (m : List (κ × β)) (k k2 : κ) (h : k2 ≠ k) :
    alistLookup (alistErase m k) k2 = alistLookup m k2 := by
  induction m with
  | nil => simp [alistErase]
  | cons kv rest ih =>
      by_cases hk : kv.1 = k
      · simp only [alistErase]
        rw [if_pos hk]
        simp only [alistLookup]
        by_cases hk2 : kv.1 = k2
        · exact absurd (hk2.symm.trans hk) h
        · rw [if_neg hk2]
      · simp only [alistErase]
        rw [if_neg hk]
        simp only [alistLookup]
        by_cases hk2 : kv.1 = k2
        · rw [if_pos hk2, if_pos hk2]
        · rw [if_neg hk2, if_neg hk2]
          exact ih

theorem alistLookup_eq_none_of_not_mem {κ β : Type} [DecidableEq κ]
    (m : List (κ × β)) (k : κ) (h : k ∉ m.map Prod.fst) :
    alistLookup m k = none := by
  induction m with
  | nil => rfl
  | cons kv rest ih =>
      simp only [List.map_cons, List.mem_cons, not_or] at h
      simp only [alistLookup]
      rw [if_neg (fun he => h.1 he.symm)]
      exact ih h.2

theorem alistLookup_erase_self_nodup {κ β : Type} [DecidableEq κ]
    (m : List (κ × β)) (k : κ) (hnd : (m.map Prod.fst).Nodup) :
    alistLookup (alistErase m k) k = none := by
  induction m with
  | nil => simp [alistErase, alistLookup]
  | cons kv rest ih =>
      simp only [List.map_cons, List.nodup_cons] at hnd
      by_cases hk : kv.1 = k
      · simp only [alistErase]
        rw [if_pos hk]
        apply alistLookup_eq_none_of_not_mem
        intro hkmem
        apply hnd.1
        rw [hk]
        exact hkmem
      · simp only [alistErase]
        rw [if_neg hk]
        simp only [alistLookup]
        rw [if_neg hk]
        exact ih hnd.2

/-- `mapM` over `Except` succeeds exactly elementwise. -/
theorem mapM_ok_forall₂ {α β : Type} (f : α → Except String β) :
    ∀ (l : List α) (l2 : List β), l.mapM f = Except.ok l2 →
      List.Forall₂ (fun a b => f a = Except.ok b) l l2 := by
  intro l
  induction l with
  | nil =>
      intro l2 h
      simp only [List.mapM_nil] at h
      cases h
      exact List.Forall₂.nil
  | cons a t ih =>
      intro l2 h
      rw [List.mapM_cons] at h
      cases hfa : f a with
      | error e =>
          rw [hfa] at h
          simp only [Bind.bind, Except.bind] at h
          exact Except.noConfusion h
      | ok b =>
          rw [hfa] at h
          cases ht : t.mapM f with
          | error e =>
              rw [ht] at h
              simp only [Bind.bind, Except.bind, Functor.map, Except.map] at h
              exact Except.noConfusion h
          | ok r =>
              rw [ht] at h
              simp only [Bind.bind, Except.bind, Functor.map, Except.map,
                Pure.pure, Except.pure, Except.ok.injEq] at h
              subst h
              exact List.Forall₂.cons hfa (ih r ht)

-- ---------------------------------------------------------------------
-- C9: model-schema normalisation
-- ---------------------------------------------------------------------

/-- `normalizeProp` (the loop body) keeps the property name, removes the
`format` key exactly when its value is the literal string `"date-time"`,
and leaves every other key untouched. -/
theorem normalizeProp_spec (pv pv2 : String × Json)
    (h : normalizeProp pv = Except.ok pv2) :
    pv2.1 = pv.1 ∧
    ∀ p, pv.2 = Json.obj p → (p.map Prod.fst).Nodup →
      ∃ p2, pv2.2 = Json.obj p2 ∧
        (∀ key, key ≠ "format" → alistLookup p2 key = alistLookup p key) ∧
        (alistLookup p2 "format" =
          if isDateTimeFmt (alistLookup p "format") then none
          else alistLookup p "format") := by
  unfold normalizeProp at h
  split at h
  · rename_i prop_schema heq
    split at h
    · rename_i s hfmt
      split at h
      · rename_i hs
        cases h
        refine ⟨rfl, ?_⟩
        intro p hp0 hnd
        have hpe : prop_schema = p := by
          have h12 := heq.symm.trans hp0
          injection h12
        subst hpe
        refine ⟨alistErase prop_schema "format", rfl, ?_, ?_⟩
        · intro key hkey
          exact alistLookup_erase_ne prop_schema "format" key hkey
        · simp only [isDateTimeFmt, hfmt, hs]
          rw [if_pos (by simp)]
          exact alistLookup_erase_self_nodup prop_schema "format" hnd
      · rename_i hs
        cases h
        refine ⟨rfl, ?_⟩
        intro p hp0 hnd
        have hpe : prop_schema = p := by
          have h12 := heq.symm.trans hp0
          injection h12
        subst hpe
        refine ⟨prop_schema, heq, fun key _ => rfl, ?_⟩
        simp only [isDateTimeFmt, hfmt]
        rw [if_neg (by simpa using hs)]
    · rename_i hfmt
      cases h
      refine ⟨rfl, ?_⟩
      intro p hp0 hnd
      have hpe : prop_schema = p := by
        have h12 := heq.symm.trans hp0
        injection h12
      subst hpe
      refine ⟨prop_schema, heq, fun key _ => rfl, ?_⟩
      have : isDateTimeFmt (alistLookup prop_schema "format") = false := by
        unfold isDateTimeFmt
        cases hf : alistLookup prop_schema "format" with
        | none => rfl
        | some v =>
            cases v with
            | str s => exact absurd hf (hfmt s)
            | null => rfl
            | bool b => rfl
            | num n => rfl
            | arr xs => rfl
            | obj fs => rfl
      rw [this]
      simp
  · rename_i hnotobj
    exact Except.noConfusion h

/-- C9: `normalize_model_schema` removes a property's `format` key
exactly when that key's value is the literal string `"date-time"`, and
leaves every other key of every property — `type` included — and every
non-`properties` key of the schema unchanged.  Property objects are
Python dicts, so their keys are unique (the `Nodup` hypothesis). -/
theorem C9_normalize_model_schema (schema schema2 : List (String × Json))
    (h : normalize_model_schema schema = Except.ok schema2) :
    (∀ k, k ≠ "properties" → alistLookup schema2 k = alistLookup schema k) ∧
    (∀ props, alistLookup schema "properties" = some (Json.obj props) →
      ∃ props2, alistLookup schema2 "properties" = some (Json.obj props2) ∧
        List.Forall₂ (fun pv pv2 => pv2.1 = pv.1 ∧
          ∀ p, pv.2 = Json.obj p → (p.map Prod.fst).Nodup →
            ∃ p2, pv2.2 = Json.obj p2 ∧
              (∀ key, key ≠ "format" →
                alistLookup p2 key = alistLookup p key) ∧
              (alistLookup p2 "format" =
                if isDateTimeFmt (alistLookup p "format") then none
                else alistLookup p "format"))
          props props2) := by
  unfold normalize_model_schema at h
  split at h
  · rename_i heq
    cases h
    refine ⟨fun k _ => rfl, ?_⟩
    intro props hprops
    rw [heq] at hprops
    exact Option.noConfusion hprops
  · rename_i props heq
    cases hm : props.mapM normalizeProp with
    | error e =>
        rw [hm] at h
        exact Except.noConfusion h
    | ok props2 =>
        rw [hm] at h
        have h2 : dictInsert schema "properties" (Json.obj props2) = schema2 := by
          injection h
        subst h2
        refine ⟨?_, ?_⟩
        · intro k hk
          exact alistLookup_dictInsert_ne schema "properties" k _ hk
        · intro props0 hprops0
          rw [heq] at hprops0
          have hpe : props = props0 := by
            injection hprops0 with h3
            injection h3
          subst hpe
          refine ⟨props2, alistLookup_dictInsert_self schema "properties" _, ?_⟩
          have hf := mapM_ok_forall₂ normalizeProp props props2 hm
          exact List.Forall₂.imp
            (fun a b hpv => normalizeProp_spec a b hpv) hf
  · rename_i heq1 heq2
    exact Except.noConfusion h

/-- Witness for `C9_normalize_model_schema` at a concrete schema. -/
theorem C9_witness :
    normalize_model_schema c9TestSchema = Except.ok c9TestNormalized ∧
    alistLookup c9TestNormalized "title" = alistLookup c9TestSchema "title" :=
  ⟨rfl,
   (C9_normalize_model_schema c9TestSchema c9TestNormalized rfl).1 "title"
     (by decide)⟩

-- ---------------------------------------------------------------------
-- C8: relevance-key wire-format round trip
-- ---------------------------------------------------------------------

theorem pySplitAux_nil (sep acc : List Char) :
    pySplitAux sep [] acc = [acc.reverse] := by
  unfold pySplitAux
  rfl

theorem pySplitAux_cons (sep : List Char) (c : Char) (rest acc : List Char) :
    pySplitAux sep (c :: rest) acc =
      if sep ≠ [] ∧ sep.isPrefixOf (c :: rest) then
        acc.reverse :: pySplitAux sep ((c :: rest).drop sep.length) []
      else pySplitAux sep rest (c :: acc) := by
  conv_lhs => unfold pySplitAux

theorem hasSub_cons_single (x0 c : Char) (rest : List Char) :
    hasSub (x0 :: rest) [c] = ((c == x0) || hasSub rest [c]) := by
  simp [hasSub, List.isPrefixOf]

theorem hasSub_false_mem {a : List Char} {c : Char} (h : hasSub a [c] = false) :
    ∀ x ∈ a, (c == x) = false := by
  induction a with
  | nil => intro x hx; cases hx
  | cons x0 rest ih =>
      intro x hx
      rw [hasSub_cons_single] at h
      simp only [Bool.or_eq_false_iff] at h
      rcases List.mem_cons.mp hx with rfl | hx2
      · exact h.1
      · exact ih h.2 x hx2

theorem hasSub_false_no_prefix {s sep : List Char} (hsep : sep ≠ [])
    (h : hasSub s sep = false) :
    ∀ i, sep.isPrefixOf (s.drop i) = false := by
  induction s with
  | nil =>
      intro i
      simp only [List.drop_nil]
      cases sep with
      | nil => exact absurd rfl hsep
      | cons c cs => rfl
  | cons c rest ih =>
      intro i
      simp only [hasSub, Bool.or_eq_false_iff] at h
      cases i with
      | zero => exact h.1
      | succ n => exact ih h.2 n

theorem isPrefixOf_append_of_le : ∀ (sep u t : List Char),
    sep.length ≤ u.length → sep.isPrefixOf (u ++ t) = sep.isPrefixOf u := by
  intro sep
  induction sep with
  | nil => intro u t _; simp [List.isPrefixOf]
  | cons s0 ss ih =>
      intro u t h
      cases u with
      | nil => simp at h
      | cons u0 us =>
          simp only [List.cons_append, List.isPrefixOf, List.append_eq]
          rw [ih us t (by simpa using h)]

theorem pySplitAux_no_occur {sep : List Char} (_hsep : sep ≠ []) :
    ∀ (s acc : List Char), hasSub s sep = false →
      pySplitAux sep s acc = [acc.reverse ++ s] := by
  intro s
  induction s with
  | nil => intro acc h; rw [pySplitAux_nil]; simp
  | cons c rest ih =>
      intro acc h
      simp only [hasSub, Bool.or_eq_false_iff] at h
      rw [pySplitAux_cons]
      rw [if_neg (fun hcond => by rw [hcond.2] at h; exact absurd h.1 (by simp))]
      rw [ih (c :: acc) h.2]
      simp

theorem pySplitAux_split {sep : List Char} (hsep : sep ≠ []) :
    ∀ (a b acc : List Char),
      (∀ i, i < a.length → sep.isPrefixOf ((a ++ sep ++ b).drop i) = false) →
      pySplitAux sep (a ++ sep ++ b) acc = (acc.reverse ++ a) :: pySplitAux sep b [] := by
  intro a
  induction a with
  | nil =>
      intro b acc _
      simp only [List.nil_append]
      cases sep with
      | nil => exact absurd rfl hsep
      | cons s0 ss =>
          rw [show ((s0 :: ss) ++ b) = s0 :: (ss ++ b) from rfl]
          rw [pySplitAux_cons]
          rw [if_pos ⟨by simp, by
            rw [show (s0 :: (ss ++ b)) = (s0 :: ss) ++ b from rfl]
            rw [List.isPrefixOf_iff_prefix]
            exact List.prefix_append (s0 :: ss) b⟩]
          rw [show (s0 :: (ss ++ b)) = (s0 :: ss) ++ b from rfl]
          rw [List.drop_left]
          simp
  | cons c a2 ih =>
      intro b acc hno
      rw [show ((c :: a2) ++ sep ++ b) = c :: (a2 ++ sep ++ b) from rfl]
      rw [pySplitAux_cons]
      rw [if_neg (fun hcond => by
        have h0 := hno 0 (by simp)
        rw [show ((c :: a2) ++ sep ++ b) = c :: (a2 ++ sep ++ b) from rfl] at h0
        simp only [List.drop_zero] at h0
        rw [hcond.2] at h0
        exact Bool.noConfusion h0)]
      rw [ih b (c :: acc) (fun i hi => by
        have := hno (i + 1) (by simpa using Nat.succ_lt_succ hi)
        rw [show ((c :: a2) ++ sep ++ b) = c :: (a2 ++ sep ++ b) from rfl] at this
        simpa using this)]
      simp

theorem hasSub_single_append (x y : List Char) (c : Char) :
    hasSub (x ++ y) [c] = (hasSub x [c] || hasSub y [c]) := by
  induction x with
  | nil => simp [hasSub]
  | cons x0 xs ih =>
      rw [List.cons_append, hasSub_cons_single, ih, hasSub_cons_single]
      simp [Bool.or_assoc]

theorem single_sep_no_prefix {a : List Char} {c : Char} (t : List Char)
    (h : hasSub a [c] = false) :
    ∀ i, i < a.length → ([c].isPrefixOf ((a ++ t).drop i)) = false := by
  intro i hi
  rw [List.drop_append_of_le_length (Nat.le_of_lt hi)]
  rw [List.drop_eq_getElem_cons hi]
  simp only [List.cons_append, List.isPrefixOf, List.append_eq, Bool.and_true]
  rw [hasSub_false_mem h _ (List.getElem_mem hi)]

theorem arrow_sep_no_prefix {a : List Char} (b : List Char)
    (h : hasSub a ['-', '>'] = false) :
    ∀ i, i < a.length →
      ((['-', '>'] : List Char).isPrefixOf ((a ++ ['-', '>'] ++ b).drop i)) = false := by
  intro i hi
  rw [List.append_assoc]
  rw [List.drop_append_of_le_length (Nat.le_of_lt hi)]
  by_cases h2 : i + 1 < a.length
  · rw [isPrefixOf_append_of_le ['-', '>'] (a.drop i) _
      (by simp only [List.length_drop, List.length_cons, List.length_nil]; omega)]
    exact hasSub_false_no_prefix (by simp) h i
  · have hlen : (a.drop i).length = 1 := by
      simp only [List.length_drop]; omega
    obtain ⟨x, hx⟩ := List.length_eq_one.mp hlen
    rw [hx]
    have harr : (('>' : Char) == '-') = false := rfl
    simp [List.isPrefixOf, harr]

theorem C8_assembly (k : RelationKey) (hfree : sepFreeKey k = true) :
    parseRelationKey (serializeRelationKey k) = Except.ok k := by
  obtain ⟨f, n, t⟩ := k
  unfold sepFreeKey at hfree
  simp only [Bool.and_eq_true, Bool.not_eq_true'] at hfree
  obtain ⟨⟨⟨⟨⟨hf1, hn1⟩, ht1⟩, hf2⟩, hn2⟩, ht2⟩ := hfree
  have hfd : hasSub f.data ['.'] = false := hf1
  have hnd : hasSub n.data ['.'] = false := hn1
  have htd : hasSub t.data ['.'] = false := ht1
  have hfa : hasSub f.data ['-', '>'] = false := hf2
  have hna : hasSub n.data ['-', '>'] = false := hn2
  have hta : hasSub t.data ['-', '>'] = false := ht2
  have hdata : (serializeRelationKey (f, n, t)).data =
      f.data ++ ['.'] ++ (n.data ++ ['-', '>'] ++ t.data) := by
    simp [serializeRelationKey, String.data_append]
  have hrest_dot : hasSub (n.data ++ ['-', '>'] ++ t.data) ['.'] = false := by
    rw [hasSub_single_append, hasSub_single_append]
    rw [hnd, htd]
    rfl
  have hsplit1 : pySplit (serializeRelationKey (f, n, t)) "." =
      [f, String.mk (n.data ++ ['-', '>'] ++ t.data)] := by
    unfold pySplit
    rw [show ("." : String).data = ['.'] from rfl]
    rw [hdata]
    rw [show f.data ++ ['.'] ++ (n.data ++ ['-', '>'] ++ t.data) =
        f.data ++ ['.'] ++ (n.data ++ ['-', '>'] ++ t.data) from rfl]
    rw [pySplitAux_split (by simp) f.data (n.data ++ ['-', '>'] ++ t.data) []
      (fun i hi => by
        rw [List.append_assoc]
        exact single_sep_no_prefix _ hfd i hi)]
    rw [pySplitAux_no_occur (by simp) _ [] hrest_dot]
    simp
  have hsplit2 : pySplit (String.mk (n.data ++ ['-', '>'] ++ t.data)) "->" = [n, t] := by
    unfold pySplit
    rw [show ("->" : String).data = ['-', '>'] from rfl]
    rw [show (String.mk (n.data ++ ['-', '>'] ++ t.data)).data =
        n.data ++ ['-', '>'] ++ t.data from rfl]
    rw [pySplitAux_split (by simp) n.data t.data []
      (fun i hi => arrow_sep_no_prefix t.data hna i hi)]
    rw [pySplitAux_no_occur (by simp) _ [] hta]
    simp
  unfold parseRelationKey
  rw [hsplit1]
  simp only [hsplit2]

/-- C8: the relevance-key wire format round-trips.  Serialising
`("Facility","hosts_event","ContainerEvent")` yields exactly
`"Facility.hosts_event->ContainerEvent"`; the core's parser (split on
`"."`, then on `"->"`) reconstructs the identical triple; and for every
triple whose components contain neither `"."` nor `"->"`, parsing the
serialised form yields the original triple. -/
theorem C8_relevance_key_round_trip :
    serializeRelationKey ("Facility", "hosts_event", "ContainerEvent") =
      "Facility.hosts_event->ContainerEvent" ∧
    parseRelationKey "Facility.hosts_event->ContainerEvent" =
      Except.ok ("Facility", "hosts_event", "ContainerEvent") ∧
    ∀ k : RelationKey, sepFreeKey k = true →
      parseRelationKey (serializeRelationKey k) = Except.ok k := by
  have h1 : serializeRelationKey ("Facility", "hosts_event", "ContainerEvent") =
      "Facility.hosts_event->ContainerEvent" := rfl
  refine ⟨h1, ?_, fun k hk => C8_assembly k hk⟩
  rw [← h1]
  exact C8_assembly ("Facility", "hosts_event", "ContainerEvent") (by decide)

/-- Witness for `C8_relevance_key_round_trip`'s universally quantified
round trip at a concrete separator-free key. -/
theorem C8_witness :
    parseRelationKey (serializeRelationKey ("City", "has_facility", "Facility")) =
      Except.ok ("City", "has_facility", "Facility") :=
  C8_relevance_key_round_trip.2.2 ("City", "has_facility", "Facility") (by decide)


-- ---------------------------------------------------------------------
-- C5 / C6: graph expansion
-- ---------------------------------------------------------------------

theorem expandRelStep_extends (acc : List String) (rel : RelationKey) :
    ∃ t, expandRelStep acc rel = acc ++ t := by
  unfold expandRelStep
  by_cases h1 : rel.1 ∈ acc ∧ rel.2.2 ∉ acc
  · rw [if_pos h1]
    by_cases h2 : rel.2.2 ∈ acc ++ [rel.2.2] ∧ rel.1 ∉ acc ++ [rel.2.2]
    · rw [if_pos h2]
      exact ⟨[rel.2.2] ++ [rel.1], by simp⟩
    · rw [if_neg h2]
      exact ⟨[rel.2.2], rfl⟩
  · rw [if_neg h1]
    by_cases h2 : rel.2.2 ∈ acc ∧ rel.1 ∉ acc
    · rw [if_pos h2]
      exact ⟨[rel.1], rfl⟩
    · rw [if_neg h2]
      exact ⟨[], by simp⟩

theorem foldl_extends {β α : Type} (f : List β → α → List β)
    (hf : ∀ acc x, ∃ t, f acc x = acc ++ t) :
    ∀ (l : List α) (s : List β), ∃ t, l.foldl f s = s ++ t := by
  intro l
  induction l with
  | nil => intro s; exact ⟨[], by simp⟩
  | cons x xs ih =>
      intro s
      obtain ⟨t1, ht1⟩ := hf s x
      obtain ⟨t2, ht2⟩ := ih (s ++ t1)
      exact ⟨t1 ++ t2, by simp [List.foldl_cons, ht1, ht2]⟩

theorem expandOnePass_extends (rels : List RelationKey) (s : List String) :
    ∃ t, expandOnePass rels s = s ++ t :=
  foldl_extends expandRelStep expandRelStep_extends rels s

theorem expandRelStep_mem (acc : List String) (rel : RelationKey) :
    ∀ x ∈ expandRelStep acc rel, x ∈ acc ∨ x = rel.1 ∨ x = rel.2.2 := by
  intro x hx
  unfold expandRelStep at hx
  by_cases h1 : rel.1 ∈ acc ∧ rel.2.2 ∉ acc
  · rw [if_pos h1] at hx
    by_cases h2 : rel.2.2 ∈ acc ++ [rel.2.2] ∧ rel.1 ∉ acc ++ [rel.2.2]
    · rw [if_pos h2] at hx
      simp only [List.append_assoc, List.mem_append, List.mem_singleton] at hx
      rcases hx with hx | hx | hx
      · exact Or.inl hx
      · exact Or.inr (Or.inr hx)
      · exact Or.inr (Or.inl hx)
    · rw [if_neg h2] at hx
      simp only [List.mem_append, List.mem_singleton] at hx
      rcases hx with hx | hx
      · exact Or.inl hx
      · exact Or.inr (Or.inr hx)
  · rw [if_neg h1] at hx
    by_cases h2 : rel.2.2 ∈ acc ∧ rel.1 ∉ acc
    · rw [if_pos h2] at hx
      simp only [List.mem_append, List.mem_singleton] at hx
      rcases hx with hx | hx
      · exact Or.inl hx
      · exact Or.inr (Or.inl hx)
    · rw [if_neg h2] at hx
      exact Or.inl hx

theorem expandOnePass_mem (rels : List RelationKey) :
    ∀ (s : List String), ∀ x ∈ expandOnePass rels s,
      x ∈ s ∨ ∃ r ∈ rels, x = r.1 ∨ x = r.2.2 := by
  induction rels with
  | nil => intro s x hx; exact Or.inl hx
  | cons r rs ih =>
      intro s x hx
      rw [expandOnePass, List.foldl_cons] at hx
      rcases ih (expandRelStep s r) x hx with hx2 | ⟨r2, hr2, hx2⟩
      · rcases expandRelStep_mem s r x hx2 with h | h | h
        · exact Or.inl h
        · exact Or.inr ⟨r, List.mem_cons_self r rs, Or.inl h⟩
        · exact Or.inr ⟨r, List.mem_cons_self r rs, Or.inr h⟩
      · exact Or.inr ⟨r2, List.mem_cons_of_mem r hr2, hx2⟩

theorem expandRelStep_nodup (acc : List String) (rel : RelationKey)
    (h : acc.Nodup) : (expandRelStep acc rel).Nodup := by
  have happ : ∀ (l : List String) (x : String), l.Nodup → x ∉ l → (l ++ [x]).Nodup := by
    intro l x hl hx
    rw [List.nodup_append]
    exact ⟨hl, List.nodup_singleton x, by simpa using hx⟩
  unfold expandRelStep
  by_cases h1 : rel.1 ∈ acc ∧ rel.2.2 ∉ acc
  · rw [if_pos h1]
    have hn1 := happ acc rel.2.2 h h1.2
    by_cases h2 : rel.2.2 ∈ acc ++ [rel.2.2] ∧ rel.1 ∉ acc ++ [rel.2.2]
    · rw [if_pos h2]
      exact happ _ rel.1 hn1 h2.2
    · rw [if_neg h2]
      exact hn1
  · rw [if_neg h1]
    by_cases h2 : rel.2.2 ∈ acc ∧ rel.1 ∉ acc
    · rw [if_pos h2]
      exact happ acc rel.1 h h2.2
    · rw [if_neg h2]
      exact h

theorem expandOnePass_nodup (rels : List RelationKey) :
    ∀ (s : List String), s.Nodup → (expandOnePass rels s).Nodup := by
  induction rels with
  | nil => intro s h; exact h
  | cons r rs ih =>
      intro s h
      rw [expandOnePass, List.foldl_cons]
      exact ih (expandRelStep s r) (expandRelStep_nodup s r h)

theorem expandRelStep_of_closed {s : List String} {rel : RelationKey}
    (h : (rel.1 ∈ s → rel.2.2 ∈ s) ∧ (rel.2.2 ∈ s → rel.1 ∈ s)) :
    expandRelStep s rel = s := by
  unfold expandRelStep
  have hc1 : ¬ (rel.1 ∈ s ∧ rel.2.2 ∉ s) := fun hc => hc.2 (h.1 hc.1)
  simp only [if_neg hc1]
  have hc2 : ¬ (rel.2.2 ∈ s ∧ rel.1 ∉ s) := fun hc => hc.2 (h.2 hc.1)
  simp only [if_neg hc2]

theorem expandOnePass_of_closed {rels : List RelationKey} :
    ∀ {s : List String}, closedUnder rels s → expandOnePass rels s = s := by
  induction rels with
  | nil => intro s _; rfl
  | cons r rs ih =>
      intro s h
      rw [expandOnePass, List.foldl_cons,
        expandRelStep_of_closed (h r (List.mem_cons_self r rs))]
      exact ih (fun r2 hr2 => h r2 (List.mem_cons_of_mem r hr2))

theorem append_eq_self {α : Type} {s t : List α} (h : s ++ t = s) : t = [] := by
  have := congrArg List.length h
  simp only [List.length_append] at this
  exact List.eq_nil_of_length_eq_zero (by omega)

theorem expandRelStep_fix_closed {s : List String} {rel : RelationKey}
    (h : expandRelStep s rel = s) :
    (rel.1 ∈ s → rel.2.2 ∈ s) ∧ (rel.2.2 ∈ s → rel.1 ∈ s) := by
  constructor
  · intro h1
    by_contra h2
    unfold expandRelStep at h
    simp only [if_pos (⟨h1, h2⟩ : rel.1 ∈ s ∧ rel.2.2 ∉ s)] at h
    by_cases hc : rel.2.2 ∈ s ++ [rel.2.2] ∧ rel.1 ∉ s ++ [rel.2.2]
    · simp only [if_pos hc] at h
      have := congrArg List.length h
      simp at this
    · simp only [if_neg hc] at h
      have := congrArg List.length h
      simp at this
  · intro h1
    by_contra h2
    unfold expandRelStep at h
    have hc1 : ¬ (rel.1 ∈ s ∧ rel.2.2 ∉ s) := fun hc => h2 hc.1
    simp only [if_neg hc1] at h
    simp only [if_pos (⟨h1, h2⟩ : rel.2.2 ∈ s ∧ rel.1 ∉ s)] at h
    have := congrArg List.length h
    simp at this

theorem expandOnePass_fix_closed {rels : List RelationKey} :
    ∀ {s : List String}, expandOnePass rels s = s → closedUnder rels s := by
  induction rels with
  | nil => intro s _ r hr; cases hr
  | cons r rs ih =>
      intro s h
      rw [expandOnePass, List.foldl_cons] at h
      obtain ⟨t1, ht1⟩ := expandRelStep_extends s r
      obtain ⟨t2, ht2⟩ := expandOnePass_extends rs (expandRelStep s r)
      have ht2f : List.foldl expandRelStep (expandRelStep s r) rs =
          expandRelStep s r ++ t2 := ht2
      rw [ht2f, ht1, List.append_assoc] at h
      obtain ⟨ht1nil, ht2nil⟩ := List.append_eq_nil.mp (append_eq_self h)
      have hstep : expandRelStep s r = s := by rw [ht1, ht1nil]; simp
      have hone : expandOnePass rs s = s := by
        have h3 := ht2
        rw [hstep, ht2nil] at h3
        simpa using h3
      intro r2 hr2
      rcases List.mem_cons.mp hr2 with rfl | hr3
      · exact expandRelStep_fix_closed hstep
      · exact ih hone r2 hr3

theorem closedUnder_of_same_mem {rels : List RelationKey} {s s2 : List String}
    (hmem : ∀ x, x ∈ s ↔ x ∈ s2) (h : closedUnder rels s) : closedUnder rels s2 := by
  intro r hr
  obtain ⟨h1, h2⟩ := h r hr
  constructor
  · intro hx
    exact (hmem _).mp (h1 ((hmem _).mpr hx))
  · intro hx
    exact (hmem _).mp (h2 ((hmem _).mpr hx))

theorem mem_endpointsFinset {rels : List RelationKey} {x : String}
    (h : ∃ r ∈ rels, x = r.1 ∨ x = r.2.2) : x ∈ endpointsFinset rels := by
  obtain ⟨r, hr, hx⟩ := h
  unfold endpointsFinset
  rw [List.mem_toFinset, List.mem_append]
  rcases hx with rfl | rfl
  · exact Or.inl (List.mem_map.mpr ⟨r, hr, rfl⟩)
  · exact Or.inr (List.mem_map.mpr ⟨r, hr, rfl⟩)

theorem endpointsFinset_card_le (rels : List RelationKey) :
    (endpointsFinset rels).card ≤ 2 * rels.length := by
  unfold endpointsFinset
  calc (rels.map (fun r => r.1) ++ rels.map (fun r => r.2.2)).toFinset.card
      ≤ (rels.map (fun r => r.1) ++ rels.map (fun r => r.2.2)).length :=
        List.toFinset_card_le _
    _ = 2 * rels.length := by simp; omega

theorem expandLoop_zero (rels : List RelationKey) (s : List String) :
    expandLoop rels 0 s = s := by
  unfold expandLoop
  rfl

theorem expandLoop_succ (rels : List RelationKey) (n : Nat) (s : List String) :
    expandLoop rels (n + 1) s =
      (if expandOnePass rels s = s then s else expandLoop rels n (expandOnePass rels s)) := by
  rfl

theorem expandLoop_of_fix {rels : List RelationKey} {s : List String}
    (h : expandOnePass rels s = s) : ∀ n, expandLoop rels n s = s := by
  intro n
  cases n with
  | zero => exact expandLoop_zero rels s
  | succ m => rw [expandLoop_succ, if_pos h]

theorem expandLoop_extends (rels : List RelationKey) :
    ∀ (n : Nat) (s : List String), ∃ t, expandLoop rels n s = s ++ t := by
  intro n
  induction n with
  | zero => intro s; exact ⟨[], by rw [expandLoop_zero]; simp⟩
  | succ m ih =>
      intro s
      rw [expandLoop_succ]
      by_cases h : expandOnePass rels s = s
      · rw [if_pos h]; exact ⟨[], by simp⟩
      · rw [if_neg h]
        obtain ⟨t1, ht1⟩ := expandOnePass_extends rels s
        obtain ⟨t2, ht2⟩ := ih (expandOnePass rels s)
        exact ⟨t1 ++ t2, by rw [ht2, ht1, List.append_assoc]⟩

theorem expandLoop_nodup (rels : List RelationKey) :
    ∀ (n : Nat) (s : List String), s.Nodup → (expandLoop rels n s).Nodup := by
  intro n
  induction n with
  | zero => intro s h; rw [expandLoop_zero]; exact h
  | succ m ih =>
      intro s h
      rw [expandLoop_succ]
      by_cases hf : expandOnePass rels s = s
      · rw [if_pos hf]; exact h
      · rw [if_neg hf]
        exact ih _ (expandOnePass_nodup rels s h)

theorem expandLoop_reaches_fix (rels : List RelationKey) :
    ∀ (n : Nat) (s : List String), s.Nodup →
      ((endpointsFinset rels) \ s.toFinset).card ≤ n →
      expandOnePass rels (expandLoop rels n s) = expandLoop rels n s := by
  intro n
  induction n with
  | zero =>
      intro s _ hcard
      rw [expandLoop_zero]
      apply expandOnePass_of_closed
      have hsub : ∀ x ∈ endpointsFinset rels, x ∈ s := by
        intro x hx
        by_contra hxs
        have : x ∈ (endpointsFinset rels) \ s.toFinset := by
          rw [Finset.mem_sdiff]
          exact ⟨hx, fun hc => hxs (List.mem_toFinset.mp hc)⟩
        rw [Finset.card_eq_zero.mp (Nat.le_zero.mp hcard)] at this
        cases this
      intro r hr
      constructor
      · intro _
        exact hsub _ (mem_endpointsFinset ⟨r, hr, Or.inr rfl⟩)
      · intro _
        exact hsub _ (mem_endpointsFinset ⟨r, hr, Or.inl rfl⟩)
  | succ m ih =>
      intro s hnd hcard
      rw [expandLoop_succ]
      by_cases hf : expandOnePass rels s = s
      · rw [if_pos hf]; exact hf
      · rw [if_neg hf]
        apply ih _ (expandOnePass_nodup rels s hnd)
        obtain ⟨t, ht⟩ := expandOnePass_extends rels s
        have htne : t ≠ [] := by
          intro hc; rw [hc] at ht; simp at ht; exact hf ht
        obtain ⟨x, xs, rfl⟩ := List.exists_cons_of_ne_nil htne
        have hxmem : x ∈ expandOnePass rels s := by
          rw [ht]; simp
        have hxnots : x ∉ s := by
          have hnd2 := expandOnePass_nodup rels s hnd
          rw [ht] at hnd2
          rw [List.nodup_append] at hnd2
          intro hc
          exact hnd2.2.2 hc (List.mem_cons_self x xs)
        have hxend : x ∈ endpointsFinset rels := by
          rcases expandOnePass_mem rels s x hxmem with hc | hc
          · exact absurd hc hxnots
          · exact mem_endpointsFinset hc
        have hstrict : (endpointsFinset rels \ (expandOnePass rels s).toFinset).card <
            (endpointsFinset rels \ s.toFinset).card := by
          apply Finset.card_lt_card
          constructor
          · intro y hy
            rw [Finset.mem_sdiff] at hy ⊢
            refine ⟨hy.1, fun hc => hy.2 ?_⟩
            rw [List.mem_toFinset] at hc ⊢
            rw [ht]
            exact List.mem_append_left _ hc
          · intro hsub
            have hx1 : x ∈ endpointsFinset rels \ s.toFinset := by
              rw [Finset.mem_sdiff]
              exact ⟨hxend, fun hc => hxnots (List.mem_toFinset.mp hc)⟩
            have hx2 := hsub hx1
            rw [Finset.mem_sdiff, List.mem_toFinset] at hx2
            exact hx2.2 hxmem
        omega

theorem charLt_iff (a b : Char) : a < b ↔ a.toNat < b.toNat := Iff.rfl

theorem char_eq_irrefl_left {a b : Char} (h : a.toNat = b.toNat) : ¬ a < b := by
  rw [charLt_iff, h]
  exact Nat.lt_irrefl _

theorem char_eq_irrefl_right {a b : Char} (h : a.toNat = b.toNat) : ¬ b < a := by
  rw [charLt_iff, h]
  exact Nat.lt_irrefl _

theorem char_eq_of_toNat_eq {a b : Char} (h : a.toNat = b.toNat) : a = b := by
  have hv : a.val = b.val := by
    have h2 : a.val.toNat = b.val.toNat := h
    exact UInt32.eq_of_toBitVec_eq (BitVec.toNat_injective h2)
  exact Char.eq_of_val_eq hv

theorem charListLe_iff : ∀ (x y : List Char),
    charListLe x y = true ↔ ¬ List.Lex (fun c d : Char => c < d) y x := by
  intro x
  induction x with
  | nil =>
      intro y
      constructor
      · intro _ h
        cases h
      · intro _
        rfl
  | cons a as ih =>
      intro y
      cases y with
      | nil =>
          constructor
          · intro h
            exact absurd h (by simp [charListLe])
          · intro h
            exact absurd List.Lex.nil h
      | cons b bs =>
          unfold charListLe
          rcases Nat.lt_trichotomy a.toNat b.toNat with hab | heq | hba
          · rw [if_pos hab]
            constructor
            · intro _ h
              cases h with
              | cons h2 => exact Nat.lt_irrefl _ hab
              | rel h2 => exact Nat.lt_asymm hab ((charLt_iff b a).mp h2)
            · intro _
              rfl
          · rw [if_neg (by omega), if_neg (by omega)]
            have hchar : a = b := char_eq_of_toNat_eq heq
            subst hchar
            constructor
            · intro hle h
              cases h with
              | cons h2 => exact (ih bs).mp hle h2
              | rel h2 => exact char_eq_irrefl_right rfl h2
            · intro hn
              apply (ih bs).mpr
              intro hbsas
              exact hn (List.Lex.cons hbsas)
          · rw [if_neg (by omega), if_pos hba]
            constructor
            · intro h
              exact absurd h (by simp)
            · intro hn
              exact absurd (List.Lex.rel ((charLt_iff b a).mpr hba)) hn

theorem pyStrLe_iff (a b : String) : pyStrLe a b = true ↔ a ≤ b := by
  have h1 : pyStrLe a b = true ↔
      ¬ List.Lex (fun c d : Char => c < d) b.data a.data :=
    charListLe_iff a.data b.data
  have h2 : (a ≤ b) ↔ ¬ (b < a) := Iff.rfl
  rw [h2, String.lt_iff_toList_lt]
  exact h1

theorem insertSorted_eq (x : String) :
    ∀ l, insertSorted x l = List.orderedInsert (fun a b : String => a ≤ b) x l := by
  intro l
  induction l with
  | nil => rfl
  | cons y ys ih =>
      unfold insertSorted List.orderedInsert
      by_cases h : x ≤ y
      · rw [if_pos ((pyStrLe_iff x y).mpr h), if_pos h]
      · rw [if_neg (fun hc => h ((pyStrLe_iff x y).mp hc)), if_neg h, ih]

theorem pySorted_eq (l : List String) :
    pySorted l = List.insertionSort (fun a b : String => a ≤ b) l := by
  induction l with
  | nil => rfl
  | cons x xs ih =>
      unfold pySorted List.insertionSort
      rw [ih, insertSorted_eq]

theorem pySorted_perm (l : List String) : ∀ x, x ∈ pySorted l ↔ x ∈ l := by
  intro x
  rw [pySorted_eq]
  exact (List.perm_insertionSort _ l).mem_iff

theorem pySorted_sorted (l : List String) :
    List.Sorted (fun a b : String => a ≤ b) (pySorted l) := by
  rw [pySorted_eq]
  exact List.sorted_insertionSort _ l

theorem pySorted_nodup {l : List String} (h : l.Nodup) : (pySorted l).Nodup := by
  rw [pySorted_eq]
  exact ((List.perm_insertionSort _ l).nodup_iff).mpr h

theorem pySorted_of_sorted {l : List String}
    (h : List.Sorted (fun a b : String => a ≤ b) l) : pySorted l = l := by
  rw [pySorted_eq]
  exact List.Sorted.insertionSort_eq h

theorem pySetAdd_mem {α : Type} [DecidableEq α] (s : List α) (x y : α) :
    y ∈ pySetAdd s x ↔ y ∈ s ∨ y = x := by
  unfold pySetAdd
  by_cases h : x ∈ s
  · rw [if_pos h]
    constructor
    · exact Or.inl
    · rintro (hy | rfl)
      · exact hy
      · exact h
  · rw [if_neg h]
    simp

theorem pySetAdd_nodup {α : Type} [DecidableEq α] {s : List α} (x : α)
    (h : s.Nodup) : (pySetAdd s x).Nodup := by
  unfold pySetAdd
  by_cases hx : x ∈ s
  · rw [if_pos hx]; exact h
  · rw [if_neg hx]
    rw [List.nodup_append]
    exact ⟨h, List.nodup_singleton x, by simpa using hx⟩

theorem mem_foldl_pySetAdd : ∀ (l acc : List String) (x : String),
    x ∈ l.foldl pySetAdd acc ↔ x ∈ acc ∨ x ∈ l := by
  intro l
  induction l with
  | nil => intro acc x; simp
  | cons a t ih =>
      intro acc x
      rw [List.foldl_cons, ih (pySetAdd acc a) x, pySetAdd_mem]
      simp only [List.mem_cons]
      tauto

theorem foldl_pySetAdd_nodup : ∀ (l acc : List String), acc.Nodup →
    (l.foldl pySetAdd acc).Nodup := by
  intro l
  induction l with
  | nil => intro acc h; exact h
  | cons a t ih =>
      intro acc h
      rw [List.foldl_cons]
      exact ih _ (pySetAdd_nodup a h)

theorem foldl_pySetAdd_of_nodup : ∀ (l acc : List String), l.Nodup →
    (∀ x ∈ l, x ∉ acc) → l.foldl pySetAdd acc = acc ++ l := by
  intro l
  induction l with
  | nil => intro acc _ _; simp
  | cons a t ih =>
      intro acc hnd hdisj
      rw [List.foldl_cons]
      have ha : a ∉ acc := hdisj a (List.mem_cons_self a t)
      have hstep : pySetAdd acc a = acc ++ [a] := by
        unfold pySetAdd
        rw [if_neg ha]
      rw [hstep, ih (acc ++ [a]) (List.nodup_cons.mp hnd).2 (fun x hx => by
        rw [List.mem_append, List.mem_singleton]
        rintro (hc | rfl)
        · exact hdisj x (List.mem_cons_of_mem a hx) hc
        · exact (List.nodup_cons.mp hnd).1 hx)]
      simp

/-- C5: on the claim's example — seeds `[{"type": "City"}]` and the
two-entry relevance map — expansion returns
`expanded_entity_types = ["City", "ContainerEvent", "Facility"]` and
`active_relations` equal to both keys in input order; and in general the
returned entity list is sorted lexicographically while
`active_relations` is the relevance map's entries, in iteration order,
restricted to values that lower-case to `"yes"`. -/
theorem C5_expand_example_sorted_active :
    expand_entities [⟨"City"⟩]
      [(("City", "has_facility", "Facility"), "yes"),
       (("Facility", "hosts_event", "ContainerEvent"), "yes")] =
      (["City", "ContainerEvent", "Facility"],
       [("City", "has_facility", "Facility"),
        ("Facility", "hosts_event", "ContainerEvent")]) ∧
    (∀ (seeds : List SeedEntity) (rels : List (RelationKey × String)),
      List.Sorted (fun a b : String => a ≤ b) (expand_entities seeds rels).1 ∧
      (expand_entities seeds rels).2 =
        (rels.filter (fun p => pyLower p.2 == "yes")).map (fun p => p.1)) := by
  refine ⟨by decide, fun seeds rels => ⟨?_, rfl⟩⟩
  show List.Sorted (fun a b : String => a ≤ b) (pySorted _)
  exact pySorted_sorted _

/-- C6: graph expansion is idempotent — feeding the produced
`expanded_entity_types` back in as the seed entity types with the same
relevance map reproduces the same output — and monotone: the output
contains every seed entity type. -/
theorem C6_expand_idempotent_monotone :
    ∀ (seeds : List SeedEntity) (rels : List (RelationKey × String)),
      (∀ e ∈ seeds, e.type ∈ (expand_entities seeds rels).1) ∧
      expand_entities ((expand_entities seeds rels).1.map SeedEntity.mk) rels =
        expand_entities seeds rels := by
  intro seeds rels
  have hfold : seeds.foldl (fun acc e => pySetAdd acc e.type) [] =
      (seeds.map SeedEntity.type).foldl pySetAdd [] := by
    rw [List.foldl_map]
  have hTnodup : (seeds.foldl (fun acc e => pySetAdd acc e.type) []).Nodup := by
    rw [hfold]
    exact foldl_pySetAdd_nodup _ [] List.nodup_nil
  have hout : expand_entities seeds rels =
      (pySorted (expandLoop
          ((rels.filter (fun p => pyLower p.2 == "yes")).map (fun p => p.1))
          (2 * ((rels.filter (fun p => pyLower p.2 == "yes")).map (fun p => p.1)).length)
          (seeds.foldl (fun acc e => pySetAdd acc e.type) [])),
        (rels.filter (fun p => pyLower p.2 == "yes")).map (fun p => p.1)) := rfl
  generalize hactive :
    (rels.filter (fun p => pyLower p.2 == "yes")).map (fun p => p.1) = active at hout
  generalize hT : seeds.foldl (fun acc e => pySetAdd acc e.type) [] = T at hout hTnodup
  have hEnodup : (expandLoop active (2 * active.length) T).Nodup :=
    expandLoop_nodup active _ T hTnodup
  have hcard : ((endpointsFinset active) \ T.toFinset).card ≤ 2 * active.length :=
    le_trans (Finset.card_le_card (Finset.sdiff_subset)) (endpointsFinset_card_le active)
  have hfix : expandOnePass active (expandLoop active (2 * active.length) T) =
      expandLoop active (2 * active.length) T :=
    expandLoop_reaches_fix active _ T hTnodup hcard
  constructor
  · intro e he
    rw [hout]
    have h1 : e.type ∈ T := by
      rw [← hT, hfold]
      rw [mem_foldl_pySetAdd]
      exact Or.inr (List.mem_map.mpr ⟨e, he, rfl⟩)
    obtain ⟨t, ht⟩ := expandLoop_extends active (2 * active.length) T
    have h2 : e.type ∈ expandLoop active (2 * active.length) T := by
      rw [ht]
      exact List.mem_append_left t h1
    exact (pySorted_perm _ e.type).mpr h2
  · rw [hout]
    have hout2 : expand_entities
        ((pySorted (expandLoop active (2 * active.length) T)).map SeedEntity.mk) rels =
        (pySorted (expandLoop active (2 * active.length)
            (((pySorted (expandLoop active (2 * active.length) T)).map
              SeedEntity.mk).foldl (fun acc e => pySetAdd acc e.type) [])),
          active) := by
      rw [← hactive]
      rfl
    rw [hout2]
    have hseeds2 : (((pySorted (expandLoop active (2 * active.length) T)).map
        SeedEntity.mk).foldl (fun acc e => pySetAdd acc e.type) []) =
        pySorted (expandLoop active (2 * active.length) T) := by
      rw [List.foldl_map]
      show (pySorted (expandLoop active (2 * active.length) T)).foldl pySetAdd [] =
        pySorted (expandLoop active (2 * active.length) T)
      have := foldl_pySetAdd_of_nodup
        (pySorted (expandLoop active (2 * active.length) T)) []
        (pySorted_nodup hEnodup) (fun x _ hc => by cases hc)
      simpa using this
    rw [hseeds2]
    have honce : expandOnePass active
        (pySorted (expandLoop active (2 * active.length) T)) =
        pySorted (expandLoop active (2 * active.length) T) :=
      expandOnePass_of_closed
        (closedUnder_of_same_mem (fun x => (pySorted_perm _ x).symm)
          (expandOnePass_fix_closed hfix))
    rw [expandLoop_of_fix honce]
    rw [pySorted_of_sorted (pySorted_sorted _)]

/-- Witness for `C6_expand_idempotent_monotone` at the concrete example
seed and relevance map. -/
theorem C6_witness :
    (SeedEntity.mk "City").type ∈
      (expand_entities [⟨"City"⟩]
        [(("City", "has_facility", "Facility"), "yes"),
         (("Facility", "hosts_event", "ContainerEvent"), "no")]).1 ∧
    expand_entities
        ((expand_entities [⟨"City"⟩]
          [(("City", "has_facility", "Facility"), "yes"),
           (("Facility", "hosts_event", "ContainerEvent"), "no")]).1.map
          SeedEntity.mk)
        [(("City", "has_facility", "Facility"), "yes"),
         (("Facility", "hosts_event", "ContainerEvent"), "no")] =
      expand_entities [⟨"City"⟩]
        [(("City", "has_facility", "Facility"), "yes"),
         (("Facility", "hosts_event", "ContainerEvent"), "no")] :=
  ⟨(C6_expand_idempotent_monotone _ _).1 ⟨"City"⟩ (by simp),
   (C6_expand_idempotent_monotone _ _).2⟩


-- ---------------------------------------------------------------------
-- C7: relation discovery
-- ---------------------------------------------------------------------

theorem discoverOuter_cons_skip (l : SemanticLayer) (e : SeedRecord)
    (rest : List SeedRecord) (seen : List RelationKey) (acc : List Candidate)
    (he : seedHasType e = false) :
    discoverOuter l seen acc (e :: rest) = discoverOuter l seen acc rest := by
  unfold seedHasType at he
  conv_lhs => unfold discoverOuter
  rcases ht : e.type? with _ | t
  · simp only [ht]
  · rw [ht] at he
    simp only [Bool.not_eq_false] at he
    have ht2 : t = "" := by simpa using he
    simp only [ht, if_pos ht2]

theorem discoverOuter_cons_take (l : SemanticLayer) (e : SeedRecord)
    (rest : List SeedRecord) (seen : List RelationKey) (acc : List Candidate)
    (t : String) (ht : e.type? = some t) (hne : t ≠ "") :
    discoverOuter l seen acc (e :: rest) =
      discoverOuter l (discoverInner seen acc (l.list_relations t)).1
        (discoverInner seen acc (l.list_relations t)).2 rest := by
  conv_lhs => unfold discoverOuter
  simp only [ht, if_neg hne]

theorem discoverInner_inv :
    ∀ (rels : List RelationSchema) (seen : List RelationKey) (acc : List Candidate),
      (acc.map candKey).Nodup → (∀ c ∈ acc, candKey c ∈ seen) →
      (((discoverInner seen acc rels).2.map candKey).Nodup ∧
        ∀ c ∈ (discoverInner seen acc rels).2, candKey c ∈ (discoverInner seen acc rels).1) := by
  intro rels
  induction rels with
  | nil => intro seen acc h1 h2; exact ⟨h1, h2⟩
  | cons rel rest ih =>
      intro seen acc h1 h2
      unfold discoverInner
      by_cases hk : rel.key ∈ seen
      · rw [if_pos hk]
        exact ih seen acc h1 h2
      · rw [if_neg hk]
        apply ih
        · rw [List.map_append]
          rw [List.nodup_append]
          refine ⟨h1, List.nodup_singleton _, ?_⟩
          intro k hkk hk2
          simp only [List.map_cons, List.map_nil, List.mem_singleton] at hk2
          subst hk2
          obtain ⟨c, hc, hck⟩ := List.mem_map.mp hkk
          have : candKey c ∈ seen := h2 c hc
          rw [hck] at this
          exact hk this
        · intro c hc
          rw [List.mem_append, List.mem_singleton] at hc
          rcases hc with hc | rfl
          · have := h2 c hc
            rw [pySetAdd_mem]
            exact Or.inl this
          · rw [pySetAdd_mem]
            exact Or.inr rfl

theorem discoverOuter_inv (l : SemanticLayer) :
    ∀ (seeds : List SeedRecord) (seen : List RelationKey) (acc : List Candidate),
      (acc.map candKey).Nodup → (∀ c ∈ acc, candKey c ∈ seen) →
      ((discoverOuter l seen acc seeds).map candKey).Nodup := by
  intro seeds
  induction seeds with
  | nil => intro seen acc h1 _; exact h1
  | cons e rest ih =>
      intro seen acc h1 h2
      by_cases he : seedHasType e = true
      · unfold seedHasType at he
        rcases ht : e.type? with _ | t
        · rw [ht] at he; cases he
        · rw [ht] at he
          have hne : t ≠ "" := by simpa using he
          rw [discoverOuter_cons_take l e rest seen acc t ht hne]
          obtain ⟨hn1, hn2⟩ :=
            discoverInner_inv (l.list_relations t) seen acc h1 h2
          exact ih _ _ hn1 hn2
      · rw [discoverOuter_cons_skip l e rest seen acc (by simpa using he)]
        exact ih seen acc h1 h2

theorem discoverOuter_skip (l : SemanticLayer) :
    ∀ (seeds : List SeedRecord) (seen : List RelationKey) (acc : List Candidate),
      discoverOuter l seen acc seeds =
        discoverOuter l seen acc (seeds.filter seedHasType) := by
  intro seeds
  induction seeds with
  | nil => intro seen acc; rfl
  | cons e rest ih =>
      intro seen acc
      by_cases he : seedHasType e = true
      · rw [List.filter_cons_of_pos he]
        unfold seedHasType at he
        rcases ht : e.type? with _ | t
        · rw [ht] at he; cases he
        · rw [ht] at he
          have hne : t ≠ "" := by simpa using he
          rw [discoverOuter_cons_take l e rest seen acc t ht hne]
          rw [discoverOuter_cons_take l e (rest.filter seedHasType) seen acc t ht hne]
          exact ih _ _
      · rw [List.filter_cons_of_neg he]
        rw [discoverOuter_cons_skip l e rest seen acc (by simpa using he)]
        exact ih seen acc

/-- C7: relation discovery silently skips records whose `"type"` is
absent or empty (the output over the filtered sequence is identical), no
relation key appears twice in the output (first occurrence wins), and the
function is deterministic — equal inputs give equal outputs. -/
theorem C7_discover_relations_unique_skip_deterministic
    (l : SemanticLayer) (seeds : List SeedRecord) :
    ((discover_relations l seeds).map candKey).Nodup ∧
    discover_relations l seeds = discover_relations l (seeds.filter seedHasType) ∧
    ∀ seeds2, seeds2 = seeds → discover_relations l seeds2 = discover_relations l seeds := by
  refine ⟨?_, ?_, ?_⟩
  · exact discoverOuter_inv l seeds [] [] (by simp) (by intro c hc; cases hc)
  · exact discoverOuter_skip l seeds [] []
  · intro seeds2 h
    rw [h]

/-- Witness for `C7_discover_relations_unique_skip_deterministic` at a
concrete layer and seed list containing a typeless record. -/
theorem C7_witness :
    ((discover_relations c7Layer [⟨some "City"⟩, ⟨none⟩]).map candKey).Nodup ∧
    discover_relations c7Layer [⟨some "City"⟩, ⟨none⟩] =
      discover_relations c7Layer
        ([⟨some "City"⟩, ⟨none⟩].filter seedHasType) ∧
    discover_relations c7Layer [⟨some "City"⟩, ⟨none⟩] =
      discover_relations c7Layer [⟨some "City"⟩, ⟨none⟩] :=
  ⟨(C7_discover_relations_unique_skip_deterministic c7Layer _).1,
   (C7_discover_relations_unique_skip_deterministic c7Layer _).2.1,
   (C7_discover_relations_unique_skip_deterministic c7Layer
      [⟨some "City"⟩, ⟨none⟩]).2.2 _ rfl⟩


-- ---------------------------------------------------------------------
-- C2: tool selection order and dedup priority
-- ---------------------------------------------------------------------

theorem find?_cons_true {α : Type} (p : α → Bool) (a : α) (l : List α)
    (h : p a = true) : (a :: l).find? p = some a := by
  simp [List.find?, h]

theorem find?_cons_false {α : Type} (p : α → Bool) (a : α) (l : List α)
    (h : p a = false) : (a :: l).find? p = l.find? p := by
  simp [List.find?, h]

theorem find?_append_of_some {α : Type} (p : α → Bool) :
    ∀ (l1 l2 : List α) (x : α), l1.find? p = some x → (l1 ++ l2).find? p = some x := by
  intro l1
  induction l1 with
  | nil => intro l2 x h; cases h
  | cons a t ih =>
      intro l2 x h
      cases hp : p a with
      | true =>
          rw [find?_cons_true p a t hp] at h
          rw [List.cons_append, find?_cons_true p a (t ++ l2) hp]
          exact h
      | false =>
          rw [find?_cons_false p a t hp] at h
          rw [List.cons_append, find?_cons_false p a (t ++ l2) hp]
          exact ih l2 x h

theorem find_name_dedupToolsAux :
    ∀ (l : List ToolInfo) (seen : List String) (n : String), n ∉ seen →
      (dedupToolsAux seen l).find? (fun t => t.name == n) =
        l.find? (fun t => t.name == n) := by
  intro l
  induction l with
  | nil => intro seen n _; rfl
  | cons t ts ih =>
      intro seen n hn
      unfold dedupToolsAux
      by_cases hts : t.name ∈ seen
      · rw [if_pos hts]
        have hne : (fun t2 : ToolInfo => t2.name == n) t = false := by
          simp only [beq_eq_false_iff_ne, ne_eq]
          intro hc
          exact hn (hc ▸ hts)
        rw [find?_cons_false _ t ts hne]
        exact ih seen n hn
      · rw [if_neg hts]
        by_cases heq : t.name = n
        · have hp : (fun t2 : ToolInfo => t2.name == n) t = true := by simpa using heq
          rw [find?_cons_true _ t ts hp,
            find?_cons_true _ t (dedupToolsAux (pySetAdd seen t.name) ts) hp]
        · have hp : (fun t2 : ToolInfo => t2.name == n) t = false := by simpa using heq
          rw [find?_cons_false _ t ts hp,
            find?_cons_false _ t (dedupToolsAux (pySetAdd seen t.name) ts) hp]
          apply ih
          rw [pySetAdd_mem]
          rintro (hc | hc)
          · exact hn hc
          · exact heq hc.symm

/-- C2 (amended): in `run_planning`'s candidate-tool computation the
relation-derived tools come FIRST and the by-name dedup keeps the first
occurrence, so when a tool name is reachable via an active relation, the
surviving entry for that name is the first relation-derived one — the
relation-associated metadata wins, not the entity-associated one. -/
theorem C2_candidate_tools_relation_priority (l : SemanticLayer) (expanded : List String)
    (active : List RelationKey) (n : String) (t : ToolInfo)
    (h : (active.foldl (fun acc rel =>
        acc ++ l.get_tools_for_relation rel.1 rel.2.1 rel.2.2) []).find?
        (fun t2 => t2.name == n) = some t) :
    (collect_candidate_tools l expanded active).find?
      (fun t2 => t2.name == n) = some t := by
  simp only [collect_candidate_tools]
  obtain ⟨t3, ht3⟩ := foldl_extends
    (fun acc e => acc ++ l.get_tools_for_entity e)
    (fun acc x => ⟨l.get_tools_for_entity x, rfl⟩) expanded
    (active.foldl (fun acc rel =>
      acc ++ l.get_tools_for_relation rel.1 rel.2.1 rel.2.2) [])
  rw [ht3]
  rw [find_name_dedupToolsAux _ [] n (by simp)]
  exact find?_append_of_some _ _ t3 t h

/-- C2 (counterexample): with tool name `"t"` reachable both ways,
`run_planning`'s computation keeps the relation-associated record, not
the entity-associated one the claim promises; and `select_tools`
(`tools_selection.py`) performs no deduplication at all — the claimed
entity-first-then-dedup computation matches neither code path. -/
theorem C2_counterexample :
    collect_candidate_tools c2Layer ["E"] [("E", "r", "F")] = [tRel] ∧
    tRel ≠ tEnt ∧
    select_tools c2Layer ["E"] [("E", "r", "F")] = [tEnt, tRel] := by
  refine ⟨rfl, ?_, rfl⟩
  intro h
  injection h with h1 h2
  exact absurd h2 (by decide)

/-- Witness for `C2_candidate_tools_relation_priority` at the concrete
two-tool layer. -/
theorem C2_witness :
    (collect_candidate_tools c2Layer ["E"] [("E", "r", "F")]).find?
      (fun t2 => t2.name == "t") = some tRel :=
  C2_candidate_tools_relation_priority c2Layer ["E"] [("E", "r", "F")] "t" tRel rfl


-- ---------------------------------------------------------------------
-- C10: index partition invariant
-- ---------------------------------------------------------------------

theorem totalCount_dictAppend {κ : Type} [DecidableEq κ] :
    ∀ (m : List (κ × List ToolInfo)) (k : κ) (v : ToolInfo),
      totalCount (dictAppend m k v) = totalCount m + 1 := by
  intro m
  induction m with
  | nil => intro k v; simp [dictAppend, totalCount]
  | cons kv rest ih =>
      intro k v
      unfold dictAppend
      by_cases h : kv.1 = k
      · rw [if_pos h]
        simp [totalCount]
        omega
      · rw [if_neg h]
        simp only [totalCount, List.map_cons, List.sum_cons] at ih ⊢
        rw [ih k v]
        omega

theorem mem_idxValues_dictAppend {κ : Type} [DecidableEq κ] :
    ∀ (m : List (κ × List ToolInfo)) (k : κ) (v t : ToolInfo),
      t ∈ idxValues (dictAppend m k v) ↔ t ∈ idxValues m ∨ t = v := by
  intro m
  induction m with
  | nil => intro k v t; simp [dictAppend, idxValues]
  | cons kv rest ih =>
      intro k v t
      unfold dictAppend
      by_cases h : kv.1 = k
      · rw [if_pos h]
        simp only [idxValues, List.map_cons, List.flatten_cons, List.mem_append,
          List.mem_singleton]
        tauto
      · rw [if_neg h]
        simp only [idxValues, List.map_cons, List.flatten_cons, List.mem_append]
        have hrw : t ∈ (List.map Prod.snd (dictAppend rest k v)).flatten ↔
            t ∈ idxValues (dictAppend rest k v) := Iff.rfl
        rw [hrw]
        constructor
        · rintro (hx | hx)
          · exact Or.inl (Or.inl hx)
          · rcases (ih k v t).mp hx with hx2 | hx2
            · exact Or.inl (Or.inr hx2)
            · exact Or.inr hx2
        · rintro ((hx | hx) | hx)
          · exact Or.inl hx
          · exact Or.inr ((ih k v t).mpr (Or.inl hx))
          · exact Or.inr ((ih k v t).mpr (Or.inr hx))

theorem mem_dictInsert {κ β : Type} [DecidableEq κ] :
    ∀ (m : List (κ × β)) (k : κ) (v : β) (p : κ × β),
      p ∈ dictInsert m k v → p ∈ m ∨ p = (k, v) := by
  intro m
  induction m with
  | nil => intro k v p hp; simp [dictInsert] at hp; exact Or.inr hp
  | cons kv rest ih =>
      intro k v p hp
      unfold dictInsert at hp
      by_cases h : kv.1 = k
      · rw [if_pos h] at hp
        rcases List.mem_cons.mp hp with rfl | hp2
        · exact Or.inr (by rw [← h])
        · exact Or.inl (List.mem_cons_of_mem kv hp2)
      · rw [if_neg h] at hp
        rcases List.mem_cons.mp hp with rfl | hp2
        · exact Or.inl (List.mem_cons_self _ _)
        · rcases ih k v p hp2 with hin | heq
          · exact Or.inl (List.mem_cons_of_mem kv hin)
          · exact Or.inr heq

theorem load_tools_kinds :
    ∀ (registry : List (String × ToolMeta)) (acc tools : List (String × ToolInfo)),
      (∀ nt ∈ acc, toolKindOk nt.2) →
      registry.foldlM (fun tools (nm : String × ToolMeta) =>
        let name := nm.1
        let meta := nm.2
        if pyTruthyRel meta.relation then
          Except.ok (dictInsert tools name
            ⟨name, meta.description, meta.input_schema, meta.output_type,
              "relation", meta.relation, meta.entity⟩)
        else if pyTruthyStr meta.entity then
          Except.ok (dictInsert tools name
            ⟨name, meta.description, meta.input_schema, meta.output_type,
              "entity", meta.relation, meta.entity⟩)
        else
          Except.error ("Tool '" ++ name ++
            "' must declare either an entity or relation association")) acc
        = Except.ok tools →
      ∀ nt ∈ tools, toolKindOk nt.2 := by
  intro registry
  induction registry with
  | nil =>
      intro acc tools hacc h
      simp only [List.foldlM_nil] at h
      cases h
      exact hacc
  | cons nm rest ih =>
      intro acc tools hacc h
      rw [List.foldlM_cons] at h
      by_cases hr : pyTruthyRel nm.2.relation = true
      · simp only [hr, if_pos] at h
        refine ih _ tools ?_ (by simpa using h)
        intro nt hnt
        rcases mem_dictInsert acc nm.1 _ nt hnt with hin | rfl
        · exact hacc nt hin
        · left
          refine ⟨rfl, ?_⟩
          cases hrel : nm.2.relation with
          | none => rw [hrel] at hr; simp [pyTruthyRel] at hr
          | some r => simp
      · rw [Bool.not_eq_true] at hr
        by_cases he : pyTruthyStr nm.2.entity = true
        · simp only [hr, Bool.false_eq_true, if_false, he, if_pos] at h
          refine ih _ tools ?_ (by simpa using h)
          intro nt hnt
          rcases mem_dictInsert acc nm.1 _ nt hnt with hin | rfl
          · exact hacc nt hin
          · right
            refine ⟨rfl, ?_⟩
            cases hent : nm.2.entity with
            | none => rw [hent] at he; simp [pyTruthyStr] at he
            | some e => simp
        · rw [Bool.not_eq_true] at he
          simp only [hr, Bool.false_eq_true, if_false, he] at h
          simp only [Bind.bind, Except.bind] at h
          exact Except.noConfusion h

theorem buildIdxStep_count :
    ∀ (acc : List (RelationKey × List ToolInfo) × List (String × List ToolInfo))
      (nt : String × ToolInfo), toolKindOk nt.2 →
      totalCount (buildIdxStep acc nt).1 + totalCount (buildIdxStep acc nt).2
        = totalCount acc.1 + totalCount acc.2 + 1 := by
  intro acc nt hok
  unfold buildIdxStep
  rcases hok with ⟨hk, hr⟩ | ⟨hk, he⟩
  · rw [if_pos hk]
    cases hrel : nt.2.associated_relation with
    | none => exact absurd hrel hr
    | some r => simp only [totalCount_dictAppend]; omega
  · have hne : ¬ nt.2.kind = "relation" := by rw [hk]; decide
    rw [if_neg hne, if_pos hk]
    cases hent : nt.2.associated_entity with
    | none => exact absurd hent he
    | some e => simp only [totalCount_dictAppend]; omega

theorem buildIdx_fold_count :
    ∀ (ts : List (String × ToolInfo))
      (acc : List (RelationKey × List ToolInfo) × List (String × List ToolInfo)),
      (∀ nt ∈ ts, toolKindOk nt.2) →
      totalCount (ts.foldl buildIdxStep acc).1
        + totalCount (ts.foldl buildIdxStep acc).2
        = totalCount acc.1 + totalCount acc.2 + ts.length := by
  intro ts
  induction ts with
  | nil => intro acc _; simp
  | cons nt rest ih =>
      intro acc hok
      rw [List.foldl_cons]
      have h1 := ih (buildIdxStep acc nt)
        (fun x hx => hok x (List.mem_cons_of_mem nt hx))
      have h2 := buildIdxStep_count acc nt (hok nt (List.mem_cons_self _ _))
      rw [h1, h2]
      simp [Nat.add_assoc, Nat.add_comm 1 rest.length]

theorem buildIdxStep_kinds :
    ∀ (acc : List (RelationKey × List ToolInfo) × List (String × List ToolInfo))
      (nt : String × ToolInfo),
      (∀ t ∈ idxValues acc.1, t.kind = "relation") →
      (∀ t ∈ idxValues acc.2, t.kind = "entity") →
      (∀ t ∈ idxValues (buildIdxStep acc nt).1, t.kind = "relation") ∧
      (∀ t ∈ idxValues (buildIdxStep acc nt).2, t.kind = "entity") := by
  intro acc nt h1 h2
  unfold buildIdxStep
  by_cases hk : nt.2.kind = "relation"
  · rw [if_pos hk]
    cases hrel : nt.2.associated_relation with
    | none => exact ⟨h1, h2⟩
    | some r =>
        refine ⟨?_, h2⟩
        intro t ht
        rcases (mem_idxValues_dictAppend acc.1 r nt.2 t).mp ht with hin | rfl
        · exact h1 t hin
        · exact hk
  · rw [if_neg hk]
    by_cases hke : nt.2.kind = "entity"
    · rw [if_pos hke]
      cases hent : nt.2.associated_entity with
      | none => exact ⟨h1, h2⟩
      | some e =>
          refine ⟨h1, ?_⟩
          intro t ht
          rcases (mem_idxValues_dictAppend acc.2 e nt.2 t).mp ht with hin | rfl
          · exact h2 t hin
          · exact hke
    · rw [if_neg hke]; exact ⟨h1, h2⟩

theorem buildIdx_fold_kinds :
    ∀ (ts : List (String × ToolInfo))
      (acc : List (RelationKey × List ToolInfo) × List (String × List ToolInfo)),
      (∀ t ∈ idxValues acc.1, t.kind = "relation") →
      (∀ t ∈ idxValues acc.2, t.kind = "entity") →
      (∀ t ∈ idxValues (ts.foldl buildIdxStep acc).1, t.kind = "relation") ∧
      (∀ t ∈ idxValues (ts.foldl buildIdxStep acc).2, t.kind = "entity") := by
  intro ts
  induction ts with
  | nil => intro acc h1 h2; exact ⟨h1, h2⟩
  | cons nt rest ih =>
      intro acc h1 h2
      rw [List.foldl_cons]
      have hstep := buildIdxStep_kinds acc nt h1 h2
      exact ih (buildIdxStep acc nt) hstep.1 hstep.2

theorem buildIdxStep_mono :
    ∀ (acc : List (RelationKey × List ToolInfo) × List (String × List ToolInfo))
      (nt : String × ToolInfo) (t : ToolInfo),
      (t ∈ idxValues acc.1 → t ∈ idxValues (buildIdxStep acc nt).1) ∧
      (t ∈ idxValues acc.2 → t ∈ idxValues (buildIdxStep acc nt).2) := by
  intro acc nt t
  unfold buildIdxStep
  by_cases hk : nt.2.kind = "relation"
  · rw [if_pos hk]
    cases nt.2.associated_relation with
    | none => exact ⟨id, id⟩
    | some r =>
        exact ⟨fun h => (mem_idxValues_dictAppend acc.1 r nt.2 t).mpr (Or.inl h), id⟩
  · rw [if_neg hk]
    by_cases hke : nt.2.kind = "entity"
    · rw [if_pos hke]
      cases nt.2.associated_entity with
      | none => exact ⟨id, id⟩
      | some e =>
          exact ⟨id, fun h => (mem_idxValues_dictAppend acc.2 e nt.2 t).mpr (Or.inl h)⟩
    · rw [if_neg hke]; exact ⟨id, id⟩

theorem buildIdx_fold_mono :
    ∀ (ts : List (String × ToolInfo))
      (acc : List (RelationKey × List ToolInfo) × List (String × List ToolInfo))
      (t : ToolInfo),
      (t ∈ idxValues acc.1 → t ∈ idxValues (ts.foldl buildIdxStep acc).1) ∧
      (t ∈ idxValues acc.2 → t ∈ idxValues (ts.foldl buildIdxStep acc).2) := by
  intro ts
  induction ts with
  | nil => intro acc t; exact ⟨id, id⟩
  | cons nt rest ih =>
      intro acc t
      rw [List.foldl_cons]
      have hstep := buildIdxStep_mono acc nt t
      have hrest := ih (buildIdxStep acc nt) t
      exact ⟨fun h => hrest.1 (hstep.1 h), fun h => hrest.2 (hstep.2 h)⟩

theorem buildIdx_fold_covers :
    ∀ (ts : List (String × ToolInfo))
      (acc : List (RelationKey × List ToolInfo) × List (String × List ToolInfo)),
      ∀ nt ∈ ts, toolKindOk nt.2 →
      nt.2 ∈ idxValues (ts.foldl buildIdxStep acc).1 ∨
      nt.2 ∈ idxValues (ts.foldl buildIdxStep acc).2 := by
  intro ts
  induction ts with
  | nil => intro acc nt h; simp at h
  | cons p rest ih =>
      intro acc nt hmem hok
      rw [List.foldl_cons]
      rcases List.mem_cons.mp hmem with rfl | hrest
      · have hstep : nt.2 ∈ idxValues (buildIdxStep acc nt).1 ∨
            nt.2 ∈ idxValues (buildIdxStep acc nt).2 := by
          unfold buildIdxStep
          rcases hok with ⟨hk, hr⟩ | ⟨hk, he⟩
          · rw [if_pos hk]
            cases hrel : nt.2.associated_relation with
            | none => exact absurd hrel hr
            | some r =>
                exact Or.inl ((mem_idxValues_dictAppend acc.1 r nt.2 nt.2).mpr
                  (Or.inr rfl))
          · have hne : ¬ nt.2.kind = "relation" := by rw [hk]; decide
            rw [if_neg hne, if_pos hk]
            cases hent : nt.2.associated_entity with
            | none => exact absurd hent he
            | some e =>
                exact Or.inr ((mem_idxValues_dictAppend acc.2 e nt.2 nt.2).mpr
                  (Or.inr rfl))
        rcases hstep with h | h
        · exact Or.inl ((buildIdx_fold_mono rest (buildIdxStep acc nt) nt.2).1 h)
        · exact Or.inr ((buildIdx_fold_mono rest (buildIdxStep acc nt) nt.2).2 h)
      · exact ih (buildIdxStep acc p) nt hrest hok

/-- **C10.** For every semantic layer produced by `build_semantic_layer`
from a successfully loaded registry: every tool record in the
relation index has kind `"relation"`, every record in the entity index
has kind `"entity"`, no record sits in both indices, every registered
tool's record appears in one of the two, and the total number of records
across both indices' value lists equals the number of registered
tools. -/
theorem C10_partition (entities : List (String × EntitySchema))
    (relations : List (RelationKey × RelationSchema))
    (registry : List (String × ToolMeta)) (layer : SemanticLayer)
    (h : build_semantic_layer entities relations registry = Except.ok layer) :
    totalCount layer.tools_by_relation + totalCount layer.tools_by_entity
      = layer.tools.length
    ∧ (∀ t ∈ idxValues layer.tools_by_relation, t.kind = "relation")
    ∧ (∀ t ∈ idxValues layer.tools_by_entity, t.kind = "entity")
    ∧ (∀ t : ToolInfo, ¬ (t ∈ idxValues layer.tools_by_relation ∧
        t ∈ idxValues layer.tools_by_entity))
    ∧ (∀ nt ∈ layer.tools, nt.2 ∈ idxValues layer.tools_by_relation ∨
        nt.2 ∈ idxValues layer.tools_by_entity) := by
  unfold build_semantic_layer at h
  cases hlt : load_tools registry with
  | error e =>
      rw [hlt] at h
      simp only [Bind.bind, Except.bind] at h
      exact Except.noConfusion h
  | ok tools =>
      rw [hlt] at h
      simp only [Bind.bind, Except.bind, Except.ok.injEq] at h
      subst h
      unfold load_tools at hlt
      have hkinds : ∀ nt ∈ tools, toolKindOk nt.2 :=
        load_tools_kinds registry [] tools (by intro nt hn; simp at hn) hlt
      have hcount := buildIdx_fold_count tools ([], []) hkinds
      have hkd := buildIdx_fold_kinds tools ([], [])
        (by intro t ht; simp [idxValues] at ht)
        (by intro t ht; simp [idxValues] at ht)
      refine ⟨?_, ?_, ?_, ?_, ?_⟩
      · simpa [build_tool_indices, totalCount] using hcount
      · intro t ht
        exact hkd.1 t (by simpa [build_tool_indices] using ht)
      · intro t ht
        exact hkd.2 t (by simpa [build_tool_indices] using ht)
      · intro t ht
        have h1 := hkd.1 t (by simpa [build_tool_indices] using ht.1)
        have h2 := hkd.2 t (by simpa [build_tool_indices] using ht.2)
        rw [h1] at h2
        exact absurd h2 (by decide)
      · intro nt hmem
        have := buildIdx_fold_covers tools ([], []) nt hmem (hkinds nt hmem)
        simpa [build_tool_indices] using this

theorem C10_witness :
    totalCount c10Layer.tools_by_relation + totalCount c10Layer.tools_by_entity
      = c10Layer.tools.length :=
  (C10_partition [] [] c10Registry c10Layer rfl).1


-- ---------------------------------------------------------------------
-- C4: the broken expansion call
-- ---------------------------------------------------------------------

/-- The name `relevant_relations` read by `expand_entities`' body is
neither a local of the function nor a module-level name of
`entity_expansion.py`, so even a successful call binding would end in
`NameError`. -/
theorem expand_entities_free_name_unbound :
    expand_entities_locals.contains "relevant_relations" = false ∧
    entity_expansion_module_globals.contains "relevant_relations" = false := by
  exact ⟨rfl, rfl⟩

/-- **C4.** `expand_entities` declares only `step1_entities`, so the
keyword `relevant_relations` that `run_semantic_grounding` passes is not
a declared parameter; for every layer, oracle, query, intent and
non-empty seed-entity list the call binding therefore raises `TypeError`
and the pipeline never obtains `(expanded_entity_types,
active_relations)`. (Were the binding to succeed, the body's read of the
unbound name `relevant_relations` would raise `NameError` instead.) -/
theorem C4_expand_entities_call_always_raises (l : SemanticLayer)
    (filtering_model : FilterFn) (query intent : String)
    (entities : List SeedRecord) (h : entities ≠ []) :
    expand_entities_params.contains "relevant_relations" = false ∧
    run_semantic_grounding l filtering_model query entities intent =
      Except.error ("TypeError: expand_entities() got an unexpected " ++
        "keyword argument 'relevant_relations'") := by
  refine ⟨rfl, ?_⟩
  unfold run_semantic_grounding
  rw [if_neg]
  · rfl
  · simp [List.isEmpty_iff, h]

/-- Witness for `C4_expand_entities_call_always_raises` at a concrete
layer and a single typed seed record. -/
theorem C4_witness :
    run_semantic_grounding c7Layer (fun _ _ _ => []) "query"
        [⟨some "City"⟩] "intent" =
      Except.error ("TypeError: expand_entities() got an unexpected " ++
        "keyword argument 'relevant_relations'") :=
  (C4_expand_entities_call_always_raises c7Layer (fun _ _ _ => []) "query"
    "intent" [⟨some "City"⟩] (by simp)).2


-- ---------------------------------------------------------------------
-- C1: plans flow through run_planning unvalidated
-- ---------------------------------------------------------------------

/-- The plan the synthesis oracle returns flows to the caller and to the
code generator without any inspection: no counterpart of the
specification's validator exists in `run_planning`.  A plan whose only
step forward-references `events` — which `specValidatePlan` rejects with
the claim's `MalformedPlanError.forwardReference "events"` — is returned
in the `ok` result unchanged. -/
theorem C1_counterexample :
    run_planning c1Layer c1ModelSchema c1BadPlanner (fun _ _ _ => ⟨""⟩)
        "which containers were seen" "track" [Json.str "Maersk"] ["City"] []
      = Except.ok (c1BadPlan, "") ∧
    specValidatePlan ((collect_candidate_tools c1Layer ["City"] []).map
        (fun t => t.name)) c1BadPlan
      = Except.error (PlanError.forwardReference "events") :=
  ⟨rfl, rfl⟩

/-- **C1 (amended).** `run_planning` performs no plan validation: for
every layer, schema oracle, code generator and inputs on which the
dictionary lookups succeed, and for every plan the synthesis oracle may
return — even one the spec's validator rejects — the pipeline returns
that plan unchanged in its `ok` result, paired with the code generated
from it.  No `MalformedPlanError` (or any other plan-shape error) is
ever produced. -/
theorem C1_run_planning_passes_invalid_plans_through
    (l : SemanticLayer) (mjs : String → List (String × Json))
    (codegen : CodegenFn) (query intent : String)
    (extracted : List Json) (expanded : List String)
    (active : List RelationKey) (plan : List Json)
    (ents : List EntitySchema) (rels : List RelationSchema)
    (ms : List (String × Json)) (td : List (String × Json)) (e : PlanError)
    (h1 : extracted.isEmpty = false) (h2 : expanded.isEmpty = false)
    (hents : expanded.mapM (fun en =>
        match alistLookup l.entities en with
        | some s => Except.ok s
        | none => Except.error ("KeyError: " ++ en)) = Except.ok ents)
    (hrels : active.mapM (fun r =>
        match alistLookup l.relations r with
        | some s => Except.ok s
        | none => Except.error ("KeyError: " ++ r.1 ++ "." ++ r.2.1 ++ "->" ++
            r.2.2)) = Except.ok rels)
    (hms : models_to_dict mjs (MODEL_MAPPING_KEYS.filter
        (fun n => expanded.contains n)) = Except.ok ms)
    (htd : (tools_to_dict (collect_candidate_tools l expanded active)).mapM
        (fun t =>
          match t with
          | Json.obj fs =>
              match alistLookup fs "name" with
              | some (Json.str n) => Except.ok (n, t)
              | some _ => Except.error "TypeError: unhashable tool name"
              | none => Except.error "KeyError: name"
          | _ => Except.error "TypeError: string indices must be integers")
        = Except.ok td)
    (hbad : specValidatePlan ((collect_candidate_tools l expanded active).map
        (fun t => t.name)) plan = Except.error e) :
    run_planning l mjs (fun _ _ _ _ _ _ _ => ⟨plan⟩) codegen query intent
        extracted expanded active
      = Except.ok (plan, (codegen plan td ms).python_code) := by
  unfold run_planning
  rw [if_neg (by simp [h1, h2])]
  simp only [hents, hrels, hms, htd, Bind.bind, Except.bind]

/-- Witness for `C1_run_planning_passes_invalid_plans_through` at the
concrete layer, oracles and forward-referencing plan. -/
theorem C1_witness :
    run_planning c1Layer c1ModelSchema c1BadPlanner (fun _ _ _ => ⟨""⟩)
        "q" "track" [Json.str "Maersk"] ["City"] []
      = Except.ok (c1BadPlan, "") :=
  C1_run_planning_passes_invalid_plans_through c1Layer c1ModelSchema
    (fun _ _ _ => ⟨""⟩) "q" "track" [Json.str "Maersk"] ["City"] [] c1BadPlan
    [⟨"City", "a city", [], [], []⟩] [] [("City", Json.obj [])]
    [("get_container_events", tool_to_dict c1Tool)]
    (PlanError.forwardReference "events") rfl rfl rfl rfl rfl rfl rfl

end AgentPoc
